import Mathlib

/-!
Shallow embedding of the position-tracking and signal-lifecycle engine of the
bybitbot repository (api/bybit/client.py, api/bybit/signal_service.py,
api/crud.py, app/schemas.py, app/models.py).

Modelling conventions:
* Python `Decimal` values and floats are modelled as `ℚ`.
* Python dicts keyed by position-key strings are modelled as association
  lists `List (String × α)` with Python's insertion-order update semantics.
* Decimal-valued string fields of the database rows ("position_size",
  "entry_price", ...) are modelled by their numeric value (`ℚ`); `None` is
  `Option.none`.  The service always formats these with `str(Decimal)`, which
  is a non-empty string, so Python truthiness of such a field coincides with
  `Option.isSome`.
* Timestamps are modelled as `ℚ` (seconds); the exchange's `execTime` field is
  modelled as an optional epoch-milliseconds number.  The ISO-8601 fallback
  parse branch is not modelled: every claim quantifies over epoch-millis
  timestamps only.
-/

namespace BybitBot

/-! ## Python dict operations on association lists -/

/-- `d[k]` lookup returning the first binding of `k`. -/
def dictGet? {α : Type} (d : List (String × α)) (k : String) : Option α :=
  match d with
  | [] => none
  | (k', v) :: rest => if k' = k then some v else dictGet? rest k

/-- `k in d`. -/
def dictContains {α : Type} (d : List (String × α)) (k : String) : Bool :=
  match d with
  | [] => false
  | (k', _) :: rest => if k' = k then true else dictContains rest k

/-- `d[k] = v`: replace the binding in place if present, else append. -/
def dictInsert {α : Type} (d : List (String × α)) (k : String) (v : α) :
    List (String × α) :=
  match d with
  | [] => [(k, v)]
  | (k', v') :: rest =>
      if k' = k then (k', v) :: rest else (k', v') :: dictInsert rest k v

/-- `del d[k]` (removes the first binding; keys are unique in practice). -/
def dictErase {α : Type} (d : List (String × α)) (k : String) :
    List (String × α) :=
  match d with
  | [] => []
  | (k', v') :: rest =>
      if k' = k then rest else (k', v') :: dictErase rest k

/-- `d.keys()`. -/
def dictKeys {α : Type} (d : List (String × α)) : List String :=
  d.map (·.1)

/-! ## Python string helpers -/

/-- Python `str.upper()` (ASCII). -/
def pyUpper (s : String) : String := String.mk (s.toList.map Char.toUpper)

/-- Python `str.lower()` (ASCII). -/
def pyLower (s : String) : String := String.mk (s.toList.map Char.toLower)

/-- Python `str.capitalize()`: first char upper, rest lower. -/
def pyCapitalize (s : String) : String :=
  match s.toList with
  | [] => ""
  | c :: cs => String.mk (Char.toUpper c :: cs.map Char.toLower)

/-- Boolean "needle occurs in haystack" over char lists. -/
def listInfix (needle hay : List Char) : Bool :=
  match hay with
  | [] => needle.isEmpty
  | _ :: t => needle.isPrefixOf hay || listInfix needle t

/-- Python `needle in hay` for strings. -/
def pyInStr (needle hay : String) : Bool :=
  listInfix needle.toList hay.toList

/-- `str.split(sep)` for a one-character separator, over char lists. -/
def splitChars (sep : Char) : List Char → List (List Char)
  | [] => [[]]
  | c :: rest =>
      let r := splitChars sep rest
      if c = sep then [] :: r
      else
        match r with
        | [] => [[c]]
        | g :: gs => (c :: g) :: gs

/-- Python `s.split(sep)` (one-character separator; `"".split` is `[""]`). -/
def pySplit (s : String) (sep : Char) : List String :=
  (splitChars sep s.toList).map String.mk

/-! ## Exchange gateway data (client.py)

`_make_request` returns the parsed JSON body, or `{"retCode": -1, ...}` on a
transport error; `get_positions` / `get_execution_list` pass that through, so a
response is a result code plus a (possibly empty) payload list. -/

/-- One row of `result.list` of `/v5/position/list`, with the fields the
tracker reads (`symbol`, `side`, `size`, `leverage`, `avgPrice`, `markPrice`,
`unrealisedPnl`, `unrealisedPnlPc`). -/
structure Position where
  symbol : String
  side : String
  size : ℚ
  leverage : String
  avgPrice : ℚ
  markPrice : ℚ
  unrealisedPnl : ℚ
  unrealisedPnlPc : ℚ
  deriving DecidableEq, Repr

/-- One row of `result.list` of `/v5/execution/list`, with the fields the
tracker reads (`side`, `price`, `orderQty`, `closedPnl`, `execTime`).
`execTime` is an optional epoch-milliseconds value. -/
structure Fill where
  side : String
  price : ℚ
  orderQty : ℚ
  closedPnl : ℚ
  execTime : Option Nat
  deriving DecidableEq, Repr

/-- A gateway response: result code plus payload list. -/
structure ApiResponse (α : Type) where
  retCode : Int
  list : List α
  deriving DecidableEq, Repr

/-- The rows the tracker may iterate over: `result.list` when `retCode == 0`,
nothing otherwise (the code only enters the loop on success). -/
def respRows {α : Type} (r : ApiResponse α) : List α :=
  if r.retCode = 0 then r.list else []

/-! ## Tracker state (BybitPositionTracker) -/

/-- `f"{category}_{symbol}_{side}"`. -/
def positionKey (category symbol side : String) : String :=
  category ++ "_" ++ symbol ++ "_" ++ side

/-- A value of `self.tracked_positions`, as written by `_process_positions`
(and by `_initialize_active_signals`). -/
structure TrackedPosition where
  symbol : String
  side : String
  size : ℚ
  leverage : String
  avg_price : ℚ
  mark_price : ℚ
  unrealized_pnl : ℚ
  percentage : ℚ
  category : String
  last_update : ℚ
  deriving DecidableEq, Repr

/-- The in-memory tracked-position map. -/
abbrev TrackedMap : Type := List (String × TrackedPosition)

/-- The fresh entry `_process_positions` stores for a live position. -/
def freshTracked (p : Position) (category : String) (now : ℚ) :
    TrackedPosition :=
  { symbol := p.symbol
    side := p.side
    size := p.size
    leverage := p.leverage
    avg_price := p.avgPrice
    mark_price := p.markPrice
    unrealized_pnl := p.unrealisedPnl
    percentage := p.unrealisedPnlPc * 100
    category := category
    last_update := now }

/-! ## Lifecycle events (the `signal_data` dicts passed to `db_callback`) -/

/-- `signal_data` for `action == "OPEN"`. -/
structure OpenEvent where
  symbol : String
  side : String
  size : ℚ
  leverage : String
  avg_price : ℚ
  category : String
  deriving DecidableEq, Repr

/-- `signal_data` for `action == "INCREASE"`. -/
structure IncreaseEvent where
  symbol : String
  side : String
  size : ℚ
  old_size : ℚ
  category : String
  avg_price : ℚ
  old_avg_price : ℚ
  increase_percentage : ℚ
  deriving DecidableEq, Repr

/-- `signal_data` for `action == "PARTIAL_CLOSE"`. -/
structure PartialCloseEvent where
  symbol : String
  side : String
  size : ℚ
  old_size : ℚ
  close_percentage : ℚ
  category : String
  avg_price : ℚ
  exit_price : Option ℚ
  realized_pnl : ℚ
  deriving DecidableEq, Repr

/-- `signal_data` for `action == "CLOSE"` (both the explicit zero-size path
and the disappearance path build this same shape). -/
structure CloseEvent where
  symbol : String
  side : String
  size : ℚ
  old_size : ℚ
  close_percentage : ℚ
  realized_pnl : ℚ
  category : String
  avg_price : ℚ
  exit_price : Option ℚ
  exit_time : Option ℚ
  profit_percentage : Option ℚ
  deriving DecidableEq, Repr

/-- A lifecycle event, tagged by its `action` field. -/
inductive Event where
  | open_ : OpenEvent → Event
  | increase : IncreaseEvent → Event
  | partialClose : PartialCloseEvent → Event
  | close : CloseEvent → Event
  deriving DecidableEq, Repr

/-- The position key the signal service derives from an event
(`f"{signal_data['category']}_{signal_data['symbol']}_{signal_data['side']}"`). -/
def eventKey : Event → String
  | .open_ e => positionKey e.category e.symbol e.side
  | .increase e => positionKey e.category e.symbol e.side
  | .partialClose e => positionKey e.category e.symbol e.side
  | .close e => positionKey e.category e.symbol e.side

/-- Whether an event is a CLOSE event. -/
def Event.isClose : Event → Bool
  | .close _ => true
  | _ => false

/-! ## Tracker event handlers (client.py, BybitPositionTracker)

Each `_handle_position_*` method builds a `signal_data` dict and passes it to
`db_callback` (always set when the tracker runs inside `BybitSignalService`);
here they return the event.  The execution-history lookups are modelled by a
function `getExec : category → symbol → ApiResponse Fill`. -/

/-- `_handle_position_open`: the OPEN `signal_data`. -/
def openEventData (p : Position) (category : String) : OpenEvent :=
  { symbol := p.symbol
    side := p.side
    size := p.size
    leverage := p.leverage
    avg_price := p.avgPrice
    category := category }

/-- `_handle_position_increase`: the INCREASE `signal_data`. -/
def increaseEventData (p : Position) (category : String)
    (old_size old_avg_price : ℚ) : IncreaseEvent :=
  let new_size := p.size
  let size_increase := new_size - old_size
  let increase_percentage :=
    if old_size > 0 then size_increase / old_size * 100 else 100
  { symbol := p.symbol
    side := p.side
    size := new_size
    old_size := old_size
    category := category
    avg_price := p.avgPrice
    old_avg_price := old_avg_price
    increase_percentage := increase_percentage }

/-- The `for exec in exec_list` loop of `_handle_position_partial_close`:
accumulate `closedPnl` of the first fill on the opposite side, record its
price, and `break`. -/
def partialScan (side : String) : List Fill → ℚ × Option ℚ
  | [] => (0, none)
  | f :: rest =>
      if f.side ≠ side then (0 + f.closedPnl, some f.price)
      else partialScan side rest

/-- `_handle_position_partial_close`: the PARTIAL_CLOSE `signal_data`.
Returns `none` when the handler dies in its internal `except` (division by
zero on `old_size == 0`) and so emits nothing. -/
def partialCloseEventData (p : Position) (category : String)
    (old_size old_avg_price : ℚ) (execs : ApiResponse Fill) :
    Option PartialCloseEvent :=
  let new_size := p.size
  let closed_size := old_size - new_size
  if old_size = 0 then none
  else
    let close_percentage := closed_size / old_size * 100
    let scan := partialScan p.side (respRows execs)
    some
      { symbol := p.symbol
        side := p.side
        size := new_size
        old_size := old_size
        close_percentage := close_percentage
        category := category
        avg_price := p.avgPrice
        exit_price := scan.2
        realized_pnl := scan.1 }

/-- Accumulators of the `for exec in exec_list` loop shared by
`_handle_position_close` and `_handle_position_close_by_disappearance`. -/
structure CloseScan where
  realized_pnl : ℚ
  exit_prices : List ℚ
  exit_quantities : List ℚ
  exit_time : Option ℚ
  deriving DecidableEq, Repr

/-- One iteration of that loop: `side` is the tracked side; a fill on the
opposite side is a closing trade. -/
def closeScanStep (side : String) (acc : CloseScan) (f : Fill) : CloseScan :=
  if f.side ≠ side then
    { realized_pnl := acc.realized_pnl + f.closedPnl
      exit_prices :=
        if f.price > 0 ∧ f.orderQty > 0 then acc.exit_prices ++ [f.price]
        else acc.exit_prices
      exit_quantities :=
        if f.price > 0 ∧ f.orderQty > 0 then
          acc.exit_quantities ++ [f.orderQty]
        else acc.exit_quantities
      exit_time :=
        match acc.exit_time, f.execTime with
        | none, some ms => some ((ms : ℚ) / 1000)
        | t, _ => t }
  else acc

/-- The whole loop, started from the zero accumulators. -/
def closeScan (side : String) (fills : List Fill) : CloseScan :=
  fills.foldl (closeScanStep side)
    { realized_pnl := 0, exit_prices := [], exit_quantities := [],
      exit_time := none }

/-- The weighted-average block of `_handle_position_close`:
`avg_exit_price` before the mark-price fallback (`None` when no valid
closing fill was recorded). -/
def weightedAvgExit (scan : CloseScan) : Option ℚ :=
  if scan.exit_prices ≠ [] ∧ scan.exit_quantities ≠ [] then
    let total_quantity := scan.exit_quantities.sum
    if total_quantity > 0 then
      let weighted_sum := ((List.zip scan.exit_prices scan.exit_quantities).map
        (fun pq => pq.1 * pq.2)).sum
      some (weighted_sum / total_quantity)
    else none
  else none

/-- Python truthiness of the optional decimal `avg_exit_price`. -/
def truthyOptQ : Option ℚ → Bool
  | none => false
  | some v => v ≠ 0

/-- `avg_exit_price` after the fallback
`if not avg_exit_price and "mark_price" in old_position` (tracked entries
always carry `mark_price`). -/
def avgExitEstimate (scanSide : String) (old : TrackedPosition)
    (execs : ApiResponse Fill) : ℚ :=
  let est := weightedAvgExit (closeScan scanSide (respRows execs))
  if truthyOptQ est then est.getD 0 else old.mark_price

/-- The profit-percentage block shared by both close paths: defined only when
`avg_exit_price` is truthy and the entry price is positive. -/
def closeProfitPercentage (old : TrackedPosition) (avg_exit_price : ℚ) :
    Option ℚ :=
  if avg_exit_price ≠ 0 ∧ old.avg_price > 0 then
    let entry_price := old.avg_price
    if pyUpper old.side = "BUY" then
      some ((avg_exit_price - entry_price) / entry_price * 100)
    else
      some ((entry_price - avg_exit_price) / entry_price * 100)
  else none

/-- `_handle_position_close`: the CLOSE `signal_data` built from the tracked
entry, the execution-history response and the current time (the live
zero-size row passed in is not read by the body). -/
def closeEventData (old : TrackedPosition) (category : String)
    (execs : ApiResponse Fill) : CloseEvent :=
  let scan := closeScan old.side (respRows execs)
  let avg_exit_price := avgExitEstimate old.side old execs
  { symbol := old.symbol
    side := old.side
    size := 0
    old_size := old.size
    close_percentage := 100
    realized_pnl := scan.realized_pnl
    category := category
    avg_price := old.avg_price
    exit_price := if avg_exit_price ≠ 0 then some avg_exit_price else none
    exit_time := scan.exit_time
    profit_percentage := closeProfitPercentage old avg_exit_price }

/-- `_handle_position_close_by_disappearance`: the CLOSE `signal_data` for a
key that vanished.  `category`/`symbol`/`side` here come from splitting the
key; the fill scan compares against the split `side`, and
`exit_time` is defaulted to `datetime.now()` when the scan found none. -/
def dispCloseEventData (splitCategory splitSide : String)
    (old : TrackedPosition) (execs : ApiResponse Fill) (now : ℚ) :
    CloseEvent :=
  let scan := closeScan splitSide (respRows execs)
  let avg_exit_price := avgExitEstimate splitSide old execs
  { symbol := old.symbol
    side := old.side
    size := 0
    old_size := old.size
    close_percentage := 100
    realized_pnl := scan.realized_pnl
    category := splitCategory
    avg_price := old.avg_price
    exit_price := if avg_exit_price ≠ 0 then some avg_exit_price else none
    exit_time := some (scan.exit_time.getD now)
    profit_percentage := closeProfitPercentage old avg_exit_price }

/-- `_handle_position_close` as a state transformer: reads the tracked entry
(the method is only reached with the key present; a missing key would raise
into the handler's `except` and change nothing), emits the CLOSE event and
deletes the key. -/
def handlePositionClose (tracked : TrackedMap) (key category : String)
    (getExec : String → String → ApiResponse Fill) :
    TrackedMap × List Event :=
  match dictGet? tracked key with
  | none => (tracked, [])
  | some old =>
      let execs := getExec category old.symbol
      (dictErase tracked key, [.close (closeEventData old category execs)])

/-- `_handle_position_close_by_disappearance` as a state transformer.  A key
that does not split into exactly `category_symbol_side` raises a
`ValueError` into the handler's `except`, emitting nothing and keeping the
entry. -/
def handleCloseByDisappearance (tracked : TrackedMap) (key : String)
    (getExec : String → String → ApiResponse Fill) (now : ℚ) :
    TrackedMap × List Event :=
  match dictGet? tracked key with
  | none => (tracked, [])
  | some old =>
      match pySplit key '_' with
      | [category, symbol, side] =>
          let execs := getExec category symbol
          (dictErase tracked key,
            [.close (dispCloseEventData category side old execs now)])
      | _ => (tracked, [])

/-- `_process_positions`: walk the live rows of one category, emitting events
and refreshing the tracked map.  A zero-size row triggers the explicit close
path and skips the refresh (`continue`); every nonzero row is re-stored
whatever branch was taken. -/
def processPositions (tracked : TrackedMap) (positions : List Position)
    (category : String) (getExec : String → String → ApiResponse Fill)
    (now : ℚ) : TrackedMap × List Event :=
  match positions with
  | [] => (tracked, [])
  | p :: rest =>
      let key := positionKey category p.symbol p.side
      if p.size = 0 then
        let step :=
          if dictContains tracked key then
            handlePositionClose tracked key category getExec
          else (tracked, [])
        let next := processPositions step.1 rest category getExec now
        (next.1, step.2 ++ next.2)
      else
        let evs :=
          if ¬ dictContains tracked key then
            [Event.open_ (openEventData p category)]
          else
            match dictGet? tracked key with
            | some old =>
                if p.size ≠ old.size then
                  if p.size > old.size then
                    [Event.increase
                      (increaseEventData p category old.size old.avg_price)]
                  else
                    match partialCloseEventData p category old.size
                        old.avg_price (getExec category p.symbol) with
                    | some e => [Event.partialClose e]
                    | none => []
                else []
            | none => []
        let tracked1 := dictInsert tracked key (freshTracked p category now)
        let next := processPositions tracked1 rest category getExec now
        (next.1, evs ++ next.2)

/-- The `for category in self.tracked_categories` loop of `_check_positions`:
a successful fetch is processed and its nonzero keys collected into
`current_position_keys`; a non-success result code (or an exception, which
`_make_request` already folds into `retCode == -1`) only logs.  Returns the
updated map, the events emitted so far and `current_position_keys`. -/
def runCategories (tracked : TrackedMap) (cats : List String)
    (getPos : String → ApiResponse Position)
    (getExec : String → String → ApiResponse Fill) (now : ℚ) :
    TrackedMap × List Event × List String :=
  match cats with
  | [] => (tracked, [], [])
  | c :: rest =>
      let resp := getPos c
      if resp.retCode = 0 then
        let pr := processPositions tracked resp.list c getExec now
        let keys := (resp.list.filter (fun p => p.size > 0)).map
          (fun p => positionKey c p.symbol p.side)
        let next := runCategories pr.1 rest getPos getExec now
        (next.1, pr.2 ++ next.2.1, keys ++ next.2.2)
      else runCategories tracked rest getPos getExec now

/-- The `for position_key in closed_positions` loop of `_check_positions`. -/
def sweepClosed (m : TrackedMap) (ks : List String)
    (getExec : String → String → ApiResponse Fill) (now : ℚ) :
    TrackedMap × List Event :=
  match ks with
  | [] => (m, [])
  | k :: rest =>
      let r := handleCloseByDisappearance m k getExec now
      let next := sweepClosed r.1 rest getExec now
      (next.1, r.2 ++ next.2)

/-- `_check_positions`: one poll cycle.  After the category loop, every
tracked key not in `current_position_keys` goes through the disappearance
close.  (Python iterates the `closed_positions` set in unspecified order; the
embedding uses tracked-map order.) -/
def checkPositions (tracked : TrackedMap) (cats : List String)
    (getPos : String → ApiResponse Position)
    (getExec : String → String → ApiResponse Fill) (now : ℚ) :
    TrackedMap × List Event :=
  let s := runCategories tracked cats getPos getExec now
  let closedKeys := (dictKeys s.1).filter (fun k => ¬ s.2.2.contains k)
  let sw := sweepClosed s.1 closedKeys getExec now
  (sw.1, s.2.1 ++ sw.2)

/-! ## Signal lifecycle store (app/models.py, app/schemas.py, api/crud.py) -/

/-- `models.SignalType` / `schemas.SignalType` (string-valued enum). -/
inductive SignalType where
  | BUY
  | SELL
  deriving DecidableEq, Repr

/-- `.value` of a `SignalType`. -/
def SignalType.value : SignalType → String
  | .BUY => "BUY"
  | .SELL => "SELL"

/-- `models.SignalCategory` / `schemas.SignalCategory`. -/
inductive SignalCategory where
  | SPOT
  | LINEAR
  | INVERSE
  deriving DecidableEq, Repr

/-- `.value` of a `SignalCategory`. -/
def SignalCategory.value : SignalCategory → String
  | .SPOT => "SPOT"
  | .LINEAR => "LINEAR"
  | .INVERSE => "INVERSE"

/-- `models.SignalAction` / `schemas.SignalAction`. -/
inductive SignalAction where
  | OPEN
  | PARTIAL_CLOSE
  | CLOSE
  | INCREASE
  deriving DecidableEq, Repr

/-- A row of the `signals` table (`models.Signal`).  Decimal-string columns
are modelled by their numeric value (see the header comment). -/
structure SignalRow where
  id : Nat
  signal_number : Nat
  symbol : String
  category : SignalCategory
  signal_type : SignalType
  action : SignalAction
  position_size : ℚ
  old_position_size : Option ℚ
  entry_price : Option ℚ
  exit_price : Option ℚ
  leverage : String
  close_percentage : Option ℚ
  realized_pnl : Option ℚ
  unrealized_pnl : Option ℚ
  profit_percentage : Option ℚ
  entry_time : ℚ
  exit_time : Option ℚ
  is_completed : Bool
  deriving DecidableEq, Repr

/-- `schemas.SignalCreate` (all fields required except `entry_price`). -/
structure SignalCreate where
  symbol : String
  category : SignalCategory
  signal_type : SignalType
  action : SignalAction
  position_size : ℚ
  leverage : String
  entry_price : Option ℚ
  entry_time : ℚ
  deriving DecidableEq, Repr

/-- `schemas.SignalUpdate`.  `action` and `position_size` are required,
non-nullable fields of the pydantic model, so no payload can carry `None`
for them; the remaining fields default to `None`.

The `entry_price` field is read by `crud.update_signal` and set by the
increase/partial-close handlers of `api/bybit/signal_service.py`; the only
`schemas.py` present in the tree is the older `app/` copy, which predates it.
Modelled from the spec: `updateSignal` takes a sparse patch whose optional
`entry_price` refreshes the stored entry price when present. -/
structure SignalUpdate where
  action : SignalAction
  position_size : ℚ
  entry_price : Option ℚ := none
  old_position_size : Option ℚ := none
  exit_price : Option ℚ := none
  exit_time : Option ℚ := none
  close_percentage : Option ℚ := none
  realized_pnl : Option ℚ := none
  profit_percentage : Option ℚ := none
  deriving DecidableEq, Repr

/-- A row of the `position_updates` table (`models.PositionUpdate`). -/
structure PositionUpdateRow where
  id : Nat
  signal_id : Nat
  action : SignalAction
  position_size : ℚ
  price : Option ℚ
  close_percentage : Option ℚ
  realized_pnl : Option ℚ
  deriving DecidableEq, Repr

/-- `schemas.PositionUpdateCreate`. -/
structure PositionUpdateCreate where
  signal_id : Nat
  action : SignalAction
  position_size : ℚ
  price : Option ℚ := none
  close_percentage : Option ℚ := none
  realized_pnl : Option ℚ := none
  deriving DecidableEq, Repr

/-- Whether the optional `position_updates` schema is usable.  `modelMissing`
models `models.PositionUpdate` being absent (an `AttributeError` whose text
is `module 'models' has no attribute 'PositionUpdate'`); `tableMissing`
models the table being absent (an `OperationalError` naming the table). -/
inductive PosUpdateSchema where
  | ok
  | modelMissing
  | tableMissing
  deriving DecidableEq, Repr

/-- The store state the crud layer mutates. -/
structure DbState where
  signals : List SignalRow
  position_updates : List PositionUpdateRow
  pos_update_schema : PosUpdateSchema
  next_signal_id : Nat
  next_update_id : Nat
  deriving DecidableEq, Repr

/-- The Python exceptions the modelled crud layer can raise. -/
inductive PyExc where
  | nameError (name : String)
  | operationalError (msg : String)
  deriving DecidableEq, Repr

/-- `crud.get_signal`: first row with the given id. -/
def get_signal (db : DbState) (signal_id : Nat) : Option SignalRow :=
  db.signals.find? (fun r => r.id = signal_id)

/-- `crud.get_open_signals`. -/
def get_open_signals (db : DbState) : List SignalRow :=
  db.signals.filter (fun r => ¬ r.is_completed)

/-- `max(existing signal numbers) or 0` in `crud.create_signal`. -/
def maxSignalNumber (db : DbState) : Nat :=
  (db.signals.map (·.signal_number)).foldr max 0

/-- `crud.create_signal`: assign `signal_number = max(existing)+1`, insert the
row, return it. -/
def create_signal (db : DbState) (s : SignalCreate) : SignalRow × DbState :=
  let next_number := maxSignalNumber db + 1
  let row : SignalRow :=
    { id := db.next_signal_id
      signal_number := next_number
      symbol := s.symbol
      category := s.category
      signal_type := s.signal_type
      action := s.action
      position_size := s.position_size
      old_position_size := none
      entry_price := s.entry_price
      exit_price := none
      leverage := s.leverage
      close_percentage := none
      realized_pnl := none
      unrealized_pnl := none
      profit_percentage := none
      entry_time := s.entry_time
      exit_time := none
      is_completed := false }
  (row, { db with
    signals := db.signals ++ [row]
    next_signal_id := db.next_signal_id + 1 })

/-- One guarded assignment of `crud.update_signal`
(`if signal_update.x: db_signal.x = signal_update.x`). -/
def patchOpt {α : Type} (new old : Option α) : Option α :=
  match new with
  | some v => some v
  | none => old

/-- The field assignments of `crud.update_signal` on the fetched row:
`action` and `position_size` unconditionally, the rest guarded by Python
truthiness (`if signal_update.x:`) or `is not None`, which coincide on the
modelled values. -/
def applySignalUpdate (r : SignalRow) (u : SignalUpdate) : SignalRow :=
  { r with
    action := u.action
    position_size := u.position_size
    entry_price := patchOpt u.entry_price r.entry_price
    old_position_size := patchOpt u.old_position_size r.old_position_size
    exit_price := patchOpt u.exit_price r.exit_price
    exit_time := patchOpt u.exit_time r.exit_time
    close_percentage := patchOpt u.close_percentage r.close_percentage
    realized_pnl := patchOpt u.realized_pnl r.realized_pnl
    profit_percentage := patchOpt u.profit_percentage r.profit_percentage }

/-- Mutate the first row with the given id in place. -/
def updateFirstRow (rows : List SignalRow) (signal_id : Nat)
    (f : SignalRow → SignalRow) : List SignalRow :=
  match rows with
  | [] => []
  | r :: rest =>
      if r.id = signal_id then f r :: rest
      else r :: updateFirstRow rest signal_id f

/-- `crud.update_signal`: fetch, sparse-patch, commit; a missing id changes
nothing and returns `None`. -/
def update_signal (db : DbState) (signal_id : Nat) (u : SignalUpdate) :
    Option SignalRow × DbState :=
  match get_signal db signal_id with
  | none => (none, db)
  | some r =>
      let r1 := applySignalUpdate r u
      let rows := updateFirstRow db.signals signal_id
        (fun row => applySignalUpdate row u)
      (some r1, { db with signals := rows })

/-- `crud.mark_signal_completed`. -/
def mark_signal_completed (db : DbState) (signal_id : Nat) :
    Option SignalRow × DbState :=
  match get_signal db signal_id with
  | none => (none, db)
  | some r =>
      let rows := updateFirstRow db.signals signal_id
        (fun row => { row with is_completed := true })
      (some { r with is_completed := true }, { db with signals := rows })

/-- `crud.create_position_update`.  With the schema intact it inserts and
returns the row.  Otherwise the insert raises; the `except` block then checks
the message for the substrings `"models"` and `"PositionUpdate"`: in the
matching branch it calls `logger.error`, but `crud.py` never defines or
imports `logger`, so that line itself raises `NameError('logger')`; in the
non-matching branch the original exception is re-raised.  Either way the
caller sees an exception and the rollback leaves the store unchanged. -/
def create_position_update (db : DbState) (u : PositionUpdateCreate) :
    Except PyExc (PositionUpdateRow × DbState) :=
  match db.pos_update_schema with
  | .ok =>
      let row : PositionUpdateRow :=
        { id := db.next_update_id
          signal_id := u.signal_id
          action := u.action
          position_size := u.position_size
          price := u.price
          close_percentage := u.close_percentage
          realized_pnl := u.realized_pnl }
      .ok (row, { db with
        position_updates := db.position_updates ++ [row]
        next_update_id := db.next_update_id + 1 })
  | .modelMissing =>
      let msg := "module 'models' has no attribute 'PositionUpdate'"
      if pyInStr "models" msg && pyInStr "PositionUpdate" msg then
        .error (.nameError "logger")
      else
        .error (.operationalError msg)
  | .tableMissing =>
      let msg := "(sqlite3.OperationalError) no such table: position_updates"
      if pyInStr "models" msg && pyInStr "PositionUpdate" msg then
        .error (.nameError "logger")
      else
        .error (.operationalError msg)

/-! ## Signal service (api/bybit/signal_service.py, BybitSignalService) -/

/-- A notification handed to the dispatcher (fire-and-forget; a notification
whose coroutine crashes on a `None` signal is never delivered). -/
inductive Notification where
  | entry (signal_id : Nat)
  | partialClose (signal_id : Nat) (close_percentage : ℚ)
  | exit (signal_id : Nat)
  | increase (signal_id : Nat)
  deriving DecidableEq, Repr

/-- The service's mutable state: the store plus `self.active_signals`. -/
structure ServiceState where
  db : DbState
  active_signals : List (String × Nat)
  deriving DecidableEq, Repr

/-- `_get_signal_category`. -/
def getSignalCategory (bybit_category : String) : SignalCategory :=
  let c := pyUpper bybit_category
  if c = "LINEAR" then .LINEAR
  else if c = "INVERSE" then .INVERSE
  else .SPOT

/-- `_get_signal_type`. -/
def getSignalType (bybit_side : String) : SignalType :=
  if pyUpper bybit_side = "BUY" then .BUY else .SELL

/-- `_calculate_profit_percentage`: the realized-PnL-based fallback
(`realized_pnl / old_size * 100`, `0.0` on `old_size == 0`).  Close events
always carry both fields, so the `.get` defaults never fire. -/
def calcProfitPercentage (ev : CloseEvent) : ℚ :=
  if ev.old_size = 0 then 0 else ev.realized_pnl / ev.old_size * 100

/-- `_handle_position_open`: an already-tracked key returns after a warning;
otherwise create the signal, remember its id and notify entry. -/
def handlePositionOpenService (st : ServiceState) (ev : OpenEvent) (now : ℚ) :
    ServiceState × List Notification :=
  let key := positionKey ev.category ev.symbol ev.side
  if dictContains st.active_signals key then (st, [])
  else
    let sc : SignalCreate :=
      { symbol := ev.symbol
        category := getSignalCategory ev.category
        signal_type := getSignalType ev.side
        action := .OPEN
        position_size := ev.size
        leverage := ev.leverage
        entry_price := some ev.avg_price
        entry_time := now }
    let (row, db1) := create_signal st.db sc
    ({ db := db1, active_signals := dictInsert st.active_signals key row.id },
      [.entry row.id])

/-- `_handle_position_partial_close`.  If `create_position_update` raises, the
exception escapes this handler into `_handle_position_update`'s `except`
(the already-committed signal patch stays, nothing is notified); a `None`
result of `update_signal` makes the final log line raise the same way and
the scheduled notification coroutine crash undelivered. -/
def handlePartialCloseService (st : ServiceState) (ev : PartialCloseEvent) :
    ServiceState × List Notification :=
  let key := positionKey ev.category ev.symbol ev.side
  match dictGet? st.active_signals key with
  | none => (st, [])
  | some signal_id =>
      let su : SignalUpdate :=
        { action := .PARTIAL_CLOSE
          position_size := ev.size
          entry_price := some ev.avg_price
          old_position_size := some ev.old_size
          close_percentage := some ev.close_percentage }
      let (rOpt, db1) := update_signal st.db signal_id su
      let puc : PositionUpdateCreate :=
        { signal_id := signal_id
          action := .PARTIAL_CLOSE
          position_size := ev.size
          close_percentage := some ev.close_percentage }
      match create_position_update db1 puc with
      | .error _ => ({ db := db1, active_signals := st.active_signals }, [])
      | .ok (_, db2) =>
          match rOpt with
          | some r =>
              ({ db := db2, active_signals := st.active_signals },
                [.partialClose r.id ev.close_percentage])
          | none => ({ db := db2, active_signals := st.active_signals }, [])

/-- The profit fallback and the `SignalUpdate` built by
`_handle_position_close`: the event's profit percentage when present, else
`_calculate_profit_percentage`; `position_size="0"`,
`close_percentage=100.0`, exit price/time and realized PnL from the event. -/
def closeSignalUpdate (ev : CloseEvent) : SignalUpdate :=
  let profit_percentage :=
    match ev.profit_percentage with
    | some v => v
    | none => calcProfitPercentage ev
  { action := .CLOSE
    position_size := 0
    old_position_size := some ev.old_size
    exit_price := ev.exit_price
    exit_time := ev.exit_time
    close_percentage := some 100
    realized_pnl := some ev.realized_pnl
    profit_percentage := some profit_percentage }

/-- `_handle_position_close`.  Computes the profit fallback when the event
carries `None`, patches and completes the signal, tolerates a failing
`create_position_update` (inner `try`), drops the key and notifies exit. -/
def handleCloseService (st : ServiceState) (ev : CloseEvent) :
    ServiceState × List Notification :=
  let key := positionKey ev.category ev.symbol ev.side
  match dictGet? st.active_signals key with
  | none => (st, [])
  | some signal_id =>
      let su := closeSignalUpdate ev
      let (_, db1) := update_signal st.db signal_id su
      let (r2, db2) := mark_signal_completed db1 signal_id
      let puc : PositionUpdateCreate :=
        { signal_id := signal_id
          action := .CLOSE
          position_size := 0
          price := ev.exit_price
          close_percentage := some 100
          realized_pnl := some ev.realized_pnl }
      let db3 :=
        match create_position_update db2 puc with
        | .ok (_, d) => d
        | .error _ => db2
      let active1 := dictErase st.active_signals key
      match r2 with
      | some r => ({ db := db3, active_signals := active1 }, [.exit r.id])
      | none => ({ db := db3, active_signals := active1 }, [])

/-- `_handle_position_increase` (same error shape as the partial-close
handler). -/
def handleIncreaseService (st : ServiceState) (ev : IncreaseEvent) :
    ServiceState × List Notification :=
  let key := positionKey ev.category ev.symbol ev.side
  match dictGet? st.active_signals key with
  | none => (st, [])
  | some signal_id =>
      let su : SignalUpdate :=
        { action := .INCREASE
          position_size := ev.size
          entry_price := some ev.avg_price
          old_position_size := some ev.old_size }
      let (rOpt, db1) := update_signal st.db signal_id su
      let puc : PositionUpdateCreate :=
        { signal_id := signal_id
          action := .INCREASE
          position_size := ev.size }
      match create_position_update db1 puc with
      | .error _ => ({ db := db1, active_signals := st.active_signals }, [])
      | .ok (_, db2) =>
          match rOpt with
          | some r =>
              ({ db := db2, active_signals := st.active_signals },
                [.increase r.id])
          | none => ({ db := db2, active_signals := st.active_signals }, [])

/-- `_handle_position_update`: dispatch on the `action` field. -/
def handleEvent (st : ServiceState) (e : Event) (now : ℚ) :
    ServiceState × List Notification :=
  match e with
  | .open_ ev => handlePositionOpenService st ev now
  | .increase ev => handleIncreaseService st ev
  | .partialClose ev => handlePartialCloseService st ev
  | .close ev => handleCloseService st ev

/-- Feed a cycle's events through the service in order. -/
def runEvents (st : ServiceState) (events : List Event) (now : ℚ) :
    ServiceState × List Notification :=
  events.foldl
    (fun (acc : ServiceState × List Notification) e =>
      let r := handleEvent acc.1 e now
      (r.1, acc.2 ++ r.2))
    (st, [])

/-! ## Startup reconciler (`_initialize_active_signals`) -/

/-- An entry of `current_bybit_positions` (note the uppercased `side`). -/
structure BybitSnapshotEntry where
  symbol : String
  side : String
  size : ℚ
  category : String
  position_data : Position
  deriving DecidableEq, Repr

/-- The first loop of `_initialize_active_signals`: snapshot the live
positions of every category, keyed by
`f"{category}_{symbol}_{side.upper()}"`, keeping only nonzero sizes. -/
def collectBybitPositions (cats : List String)
    (getPos : String → ApiResponse Position) :
    List (String × BybitSnapshotEntry) :=
  cats.foldl
    (fun acc c =>
      let resp := getPos c
      if resp.retCode = 0 then
        resp.list.foldl
          (fun acc2 p =>
            let side := pyUpper p.side
            if p.size > 0 then
              dictInsert acc2 (positionKey c p.symbol side)
                { symbol := p.symbol, side := side, size := p.size,
                  category := c, position_data := p }
            else acc2)
          acc
      else acc)
    []

/-- The matching loop of `_initialize_active_signals`: for every open signal,
derive `f"{category.lower()}_{symbol}_{side.lower().capitalize()}"` and, when
that key is in the snapshot, seed `active_signals` with the signal id and the
tracker's map from the snapshot's `position_data`.  Returns
`(active_signals, tracked_positions)`, both `{}` at entry. -/
def initializeActiveSignals (db : DbState) (cats : List String)
    (getPos : String → ApiResponse Position) (now : ℚ) :
    List (String × Nat) × TrackedMap :=
  let open_signals := get_open_signals db
  let bybit := collectBybitPositions cats getPos
  open_signals.foldl
    (fun (acc : List (String × Nat) × TrackedMap) s =>
      let category := pyLower s.category.value
      let symbol := s.symbol
      let side := pyCapitalize (pyLower s.signal_type.value)
      let key := positionKey category symbol side
      match dictGet? bybit key with
      | some entry =>
          let p := entry.position_data
          let tp : TrackedPosition :=
            { symbol := symbol
              side := side
              size := p.size
              leverage := p.leverage
              avg_price := p.avgPrice
              mark_price := p.markPrice
              unrealized_pnl := p.unrealisedPnl
              percentage := p.unrealisedPnlPc * 100
              category := category
              last_update := now }
          (dictInsert acc.1 key s.id, dictInsert acc.2 key tp)
      | none => acc)
    ([], [])

/-! ## Helper lemmas: dicts -/

theorem dictKeys_cons {α : Type} (k0 : String) (v0 : α)
    (tl : List (String × α)) :
    dictKeys ((k0, v0) :: tl) = k0 :: dictKeys tl := rfl

theorem dictGet?_insert {α : Type} (d : List (String × α)) (k k' : String)
    (v : α) :
    dictGet? (dictInsert d k v) k' =
      if k = k' then some v else dictGet? d k' := by
  induction d with
  | nil => simp [dictInsert, dictGet?]
  | cons hd tl ih =>
      obtain ⟨k0, v0⟩ := hd
      by_cases h0 : k0 = k
      · subst h0
        by_cases h1 : k0 = k'
        · subst h1; simp [dictInsert, dictGet?]
        · simp [dictInsert, dictGet?, h1]
      · by_cases h1 : k0 = k'
        · subst h1
          have h2 : k ≠ k0 := fun h2 => h0 h2.symm
          simp [dictInsert, dictGet?, h0, h2]
        · simp [dictInsert, dictGet?, h0, h1, ih]

theorem dictGet?_erase_ne {α : Type} (d : List (String × α)) (k k' : String)
    (h : k ≠ k') :
    dictGet? (dictErase d k) k' = dictGet? d k' := by
  induction d with
  | nil => simp [dictErase, dictGet?]
  | cons hd tl ih =>
      obtain ⟨k0, v0⟩ := hd
      by_cases h0 : k0 = k
      · subst h0
        have h2 : k0 ≠ k' := h
        simp [dictErase, dictGet?, h2]
      · simp [dictErase, dictGet?, h0, ih]

theorem mem_dictKeys_of_isSome {α : Type} (d : List (String × α))
    (k : String) (h : (dictGet? d k).isSome) : k ∈ dictKeys d := by
  induction d with
  | nil => simp [dictGet?] at h
  | cons hd tl ih =>
      obtain ⟨k0, v0⟩ := hd
      rw [dictKeys_cons]
      by_cases h0 : k0 = k
      · subst h0; exact List.mem_cons_self _ _
      · rw [dictGet?] at h
        simp only [if_neg h0] at h
        exact List.mem_cons_of_mem _ (ih h)

theorem dictGet?_eq_none_of_not_mem {α : Type} (d : List (String × α))
    (k : String) (h : k ∉ dictKeys d) : dictGet? d k = none := by
  induction d with
  | nil => rfl
  | cons hd tl ih =>
      obtain ⟨k0, v0⟩ := hd
      rw [dictKeys_cons] at h
      have h1 : k0 ≠ k := fun h2 => h (h2 ▸ List.mem_cons_self _ _)
      have h2 : k ∉ dictKeys tl := fun h3 => h (List.mem_cons_of_mem _ h3)
      rw [dictGet?]
      simp only [if_neg h1]
      exact ih h2

theorem dictErase_get_self_of_nodup {α : Type} (d : List (String × α))
    (k : String) (h : (dictKeys d).Nodup) :
    dictGet? (dictErase d k) k = none := by
  induction d with
  | nil => rfl
  | cons hd tl ih =>
      obtain ⟨k0, v0⟩ := hd
      rw [dictKeys_cons, List.nodup_cons] at h
      by_cases h0 : k0 = k
      · subst h0
        rw [dictErase]
        simp only [if_pos rfl]
        exact dictGet?_eq_none_of_not_mem tl k0 h.1
      · rw [dictErase]
        simp only [if_neg h0]
        rw [dictGet?]
        simp only [if_neg h0]
        exact ih h.2

theorem dictKeys_erase_sublist {α : Type} (d : List (String × α))
    (k : String) : (dictKeys (dictErase d k)).Sublist (dictKeys d) := by
  induction d with
  | nil => simp [dictErase]
  | cons hd tl ih =>
      obtain ⟨k0, v0⟩ := hd
      by_cases h0 : k0 = k
      · rw [dictErase]
        simp only [if_pos h0, dictKeys_cons]
        exact List.sublist_cons_self k0 _
      · rw [dictErase]
        simp only [if_neg h0, dictKeys_cons]
        exact ih.cons₂ k0

theorem dictKeys_erase_nodup {α : Type} (d : List (String × α)) (k : String)
    (h : (dictKeys d).Nodup) : (dictKeys (dictErase d k)).Nodup :=
  (dictKeys_erase_sublist d k).nodup h

theorem mem_dictKeys_insert {α : Type} (d : List (String × α))
    (k k' : String) (v : α) :
    k' ∈ dictKeys (dictInsert d k v) ↔ k' ∈ dictKeys d ∨ k' = k := by
  induction d with
  | nil =>
      simp [dictInsert, dictKeys]
  | cons hd tl ih =>
      obtain ⟨k0, v0⟩ := hd
      by_cases h0 : k0 = k
      · subst h0
        simp [dictInsert, dictKeys_cons, List.mem_cons]
        tauto
      · simp [dictInsert, h0, dictKeys_cons, List.mem_cons, ih]
        tauto

theorem dictKeys_insert_nodup {α : Type} (d : List (String × α))
    (k : String) (v : α) (h : (dictKeys d).Nodup) :
    (dictKeys (dictInsert d k v)).Nodup := by
  induction d with
  | nil => simp [dictInsert, dictKeys]
  | cons hd tl ih =>
      obtain ⟨k0, v0⟩ := hd
      rw [dictKeys_cons, List.nodup_cons] at h
      by_cases h0 : k0 = k
      · subst h0
        simp [dictInsert, dictKeys_cons, List.nodup_cons]
        exact h
      · simp only [dictInsert, if_neg h0, dictKeys_cons, List.nodup_cons]
        refine ⟨?_, ih h.2⟩
        intro h1
        rcases (mem_dictKeys_insert tl k k0 v).1 h1 with h2 | h2
        · exact h.1 h2
        · exact h0 h2

/-! ## Helper lemmas: store -/

theorem patchOpt_none {α : Type} (old : Option α) :
    patchOpt none old = old := rfl

theorem patchOpt_idem {α : Type} (new old : Option α) :
    patchOpt new (patchOpt new old) = patchOpt new old := by
  cases new <;> rfl

theorem applySignalUpdate_id (r : SignalRow) (u : SignalUpdate) :
    (applySignalUpdate r u).id = r.id := rfl

theorem applySignalUpdate_idem (r : SignalRow) (u : SignalUpdate) :
    applySignalUpdate (applySignalUpdate r u) u = applySignalUpdate r u := by
  simp [applySignalUpdate, patchOpt_idem]

theorem updateFirstRow_find? (rows : List SignalRow) (sid : Nat)
    (f : SignalRow → SignalRow) (hid : ∀ r, (f r).id = r.id) :
    (updateFirstRow rows sid f).find? (fun r => r.id = sid) =
      (rows.find? (fun r => r.id = sid)).map f := by
  induction rows with
  | nil => rfl
  | cons r rest ih =>
      by_cases h0 : r.id = sid
      · simp [updateFirstRow, h0, List.find?, hid]
      · simp [updateFirstRow, h0, List.find?, ih]

theorem updateFirstRow_idem (rows : List SignalRow) (sid : Nat)
    (f : SignalRow → SignalRow) (hid : ∀ r, (f r).id = r.id)
    (hf : ∀ r, f (f r) = f r) :
    updateFirstRow (updateFirstRow rows sid f) sid f =
      updateFirstRow rows sid f := by
  induction rows with
  | nil => rfl
  | cons r rest ih =>
      by_cases h0 : r.id = sid
      · simp [updateFirstRow, h0, hid, hf]
      · simp [updateFirstRow, h0, ih]

/-- The store after `update_signal` found its row. -/
def updateSignalRows (db : DbState) (sid : Nat) (u : SignalUpdate) : DbState :=
  let rows := updateFirstRow db.signals sid (fun row => applySignalUpdate row u)
  { db with signals := rows }

theorem update_signal_eq_of_none (db : DbState) (sid : Nat)
    (u : SignalUpdate) (h : get_signal db sid = none) :
    (update_signal db sid u).2 = db := by
  simp [update_signal, h]

theorem update_signal_eq_of_get (db : DbState) (sid : Nat) (u : SignalUpdate)
    (r : SignalRow) (h : get_signal db sid = some r) :
    (update_signal db sid u).2 = updateSignalRows db sid u := by
  simp [update_signal, h, updateSignalRows]

theorem get_signal_update_signal (db : DbState) (sid : Nat)
    (u : SignalUpdate) :
    get_signal (update_signal db sid u).2 sid =
      (get_signal db sid).map (fun r => applySignalUpdate r u) := by
  cases h : get_signal db sid with
  | none =>
      rw [update_signal_eq_of_none db sid u h, h]
      rfl
  | some r =>
      rw [update_signal_eq_of_get db sid u r h]
      have h' : db.signals.find? (fun row => row.id = sid) = some r := h
      simp only [updateSignalRows, get_signal]
      rw [updateFirstRow_find? db.signals sid
        (fun row => applySignalUpdate row u) (fun row => rfl), h']

/-- C7 helper: `update_signal` twice is `update_signal` once, at the level of
the whole store. -/
theorem update_signal_twice (db : DbState) (sid : Nat) (u : SignalUpdate) :
    (update_signal (update_signal db sid u).2 sid u).2 =
      (update_signal db sid u).2 := by
  cases h : get_signal db sid with
  | none =>
      rw [update_signal_eq_of_none db sid u h,
        update_signal_eq_of_none db sid u h]
  | some r =>
      have h1 : get_signal (update_signal db sid u).2 sid =
          some (applySignalUpdate r u) := by
        rw [get_signal_update_signal, h]; rfl
      rw [update_signal_eq_of_get _ sid u _ h1,
        update_signal_eq_of_get db sid u r h]
      simp only [updateSignalRows]
      congr 1
      exact updateFirstRow_idem db.signals sid _ (fun row => rfl)
        (fun row => applySignalUpdate_idem row u)

/-! ## C7 -/

/-- C7: `update_signal` is idempotent (patching twice with the same payload
yields the same store as patching once), and every nullable payload field
that is `None` leaves the stored value untouched.  (`action` and
`position_size` are required, non-nullable fields of `schemas.SignalUpdate`,
so no payload can carry null for them.) -/
theorem update_signal_sparse_idempotent (db : DbState) (sid : Nat)
    (u : SignalUpdate) :
    ((update_signal (update_signal db sid u).2 sid u).2 =
        (update_signal db sid u).2) ∧
    ∀ r, get_signal db sid = some r →
      get_signal (update_signal db sid u).2 sid =
          some (applySignalUpdate r u) ∧
      (u.entry_price = none →
        (applySignalUpdate r u).entry_price = r.entry_price) ∧
      (u.old_position_size = none →
        (applySignalUpdate r u).old_position_size = r.old_position_size) ∧
      (u.exit_price = none →
        (applySignalUpdate r u).exit_price = r.exit_price) ∧
      (u.exit_time = none →
        (applySignalUpdate r u).exit_time = r.exit_time) ∧
      (u.close_percentage = none →
        (applySignalUpdate r u).close_percentage = r.close_percentage) ∧
      (u.realized_pnl = none →
        (applySignalUpdate r u).realized_pnl = r.realized_pnl) ∧
      (u.profit_percentage = none →
        (applySignalUpdate r u).profit_percentage = r.profit_percentage) := by
  refine ⟨update_signal_twice db sid u, ?_⟩
  intro r hr
  refine ⟨?_, ?_, ?_, ?_, ?_, ?_, ?_, ?_⟩
  · rw [get_signal_update_signal, hr]; rfl
  all_goals
    intro h
    simp [applySignalUpdate, h, patchOpt]

/-- A stored signal row used to exercise the store operations. -/
def c7row : SignalRow :=
  { id := 1, signal_number := 1, symbol := "BTCUSDT", category := .LINEAR,
    signal_type := .BUY, action := .OPEN, position_size := 1,
    old_position_size := none, entry_price := some 50000, exit_price := none,
    leverage := "10", close_percentage := none, realized_pnl := none,
    unrealized_pnl := none, profit_percentage := none, entry_time := 0,
    exit_time := none, is_completed := false }

/-- A store holding just that row. -/
def c7db : DbState :=
  { signals := [c7row], position_updates := [], pos_update_schema := .ok,
    next_signal_id := 2, next_update_id := 1 }

/-- A patch whose nullable fields are all absent. -/
def c7patch : SignalUpdate :=
  { action := .PARTIAL_CLOSE, position_size := 1 }

/-- C7 witness: the idempotence and the null-field retention at a concrete
store and payload. -/
theorem update_signal_sparse_idempotent_witness :
    ((update_signal (update_signal c7db 1 c7patch).2 1 c7patch).2 =
        (update_signal c7db 1 c7patch).2) ∧
    (applySignalUpdate c7row c7patch).entry_price = c7row.entry_price := by
  have h := update_signal_sparse_idempotent c7db 1 c7patch
  exact ⟨h.1, (h.2 c7row (by decide)).2.1 rfl⟩

/-! ## C8 -/

/-- A serial run of `crud.create_signal` calls by the single writer,
returning the assigned signal numbers. -/
def createSignalsFrom (db : DbState) : List SignalCreate → List Nat × DbState
  | [] => ([], db)
  | s :: rest =>
      let r := create_signal db s
      let next := createSignalsFrom r.2 rest
      (r.1.signal_number :: next.1, next.2)

theorem foldr_max_cons_le (l : List Nat) (a : Nat) :
    l.foldr max a = max (l.foldr max 0) a := by
  induction l with
  | nil => simp
  | cons x l ih => simp [List.foldr_cons, ih, Nat.max_assoc]

theorem le_foldr_max (l : List Nat) (m : Nat) (h : m ∈ l) :
    m ≤ l.foldr max 0 := by
  induction l with
  | nil => cases h
  | cons x l ih =>
      rcases List.mem_cons.1 h with h1 | h1
      · subst h1; exact Nat.le_max_left _ _
      · exact le_trans (ih h1) (Nat.le_max_right _ _)

theorem maxSignalNumber_create_signal (db : DbState) (s : SignalCreate) :
    maxSignalNumber (create_signal db s).2 = maxSignalNumber db + 1 := by
  show ((db.signals ++ [(create_signal db s).1]).map (·.signal_number)).foldr
    max 0 = maxSignalNumber db + 1
  rw [List.map_append, List.foldr_append]
  show (db.signals.map (·.signal_number)).foldr max
    (max (maxSignalNumber db + 1) 0) = maxSignalNumber db + 1
  rw [Nat.max_zero, foldr_max_cons_le]
  exact Nat.max_eq_right (Nat.le_succ _)

/-- C8: a serial sequence of `create_signal` calls assigns exactly the
contiguous, strictly increasing run `max(existing)+1, max(existing)+2, …`,
and every assigned number is strictly above every pre-existing one (no gap,
duplicate or reuse). -/
theorem create_signal_numbers_contiguous (db : DbState)
    (reqs : List SignalCreate) :
    (createSignalsFrom db reqs).1 =
      List.range' (maxSignalNumber db + 1) reqs.length ∧
    ∀ m ∈ db.signals.map (fun r => r.signal_number),
      ∀ j ∈ (createSignalsFrom db reqs).1, m < j := by
  induction reqs generalizing db with
  | nil =>
      refine ⟨rfl, ?_⟩
      intro m _ j hj
      cases hj
  | cons s rest ih =>
      obtain ⟨ih1, ih2⟩ := ih (create_signal db s).2
      constructor
      · show (create_signal db s).1.signal_number ::
          (createSignalsFrom (create_signal db s).2 rest).1 = _
        rw [List.length_cons, List.range'_succ, ih1,
          maxSignalNumber_create_signal]
        rfl
      · intro m hm j hj
        rcases List.mem_cons.1 hj with h1 | h1
        · have h2 : m ≤ maxSignalNumber db := le_foldr_max _ m hm
          have h3 : j = maxSignalNumber db + 1 := h1
          omega
        · refine ih2 m ?_ j h1
          show m ∈ ((db.signals ++ [(create_signal db s).1]).map
            (fun r => r.signal_number))
          rw [List.map_append]
          exact List.mem_append_left _ hm

/-- The pre-existing rows for the C8 witness: signal numbers 5 and 2. -/
def c8db : DbState :=
  { signals :=
      [{ c7row with id := 1, signal_number := 5 },
       { c7row with id := 2, signal_number := 2 }],
    position_updates := [], pos_update_schema := .ok,
    next_signal_id := 3, next_update_id := 1 }

/-- Three creation requests for the C8 witness. -/
def c8reqs : List SignalCreate :=
  [{ symbol := "BTCUSDT", category := .LINEAR, signal_type := .BUY,
     action := .OPEN, position_size := 1, leverage := "1",
     entry_price := some 50000, entry_time := 0 },
   { symbol := "ETHUSDT", category := .LINEAR, signal_type := .SELL,
     action := .OPEN, position_size := 2, leverage := "2",
     entry_price := none, entry_time := 1 },
   { symbol := "XRPUSDT", category := .SPOT, signal_type := .BUY,
     action := .OPEN, position_size := 3, leverage := "1",
     entry_price := none, entry_time := 2 }]

/-- C8 witness: from existing numbers `{5, 2}`, three serial creations
assign exactly `[6, 7, 8]`, and the pre-existing number 2 is below each. -/
theorem create_signal_numbers_contiguous_witness :
    (createSignalsFrom c8db c8reqs).1 = [6, 7, 8] ∧
    (2 : Nat) < 6 ∧ (2 : Nat) ∈ c8db.signals.map (fun r => r.signal_number) := by
  have h := create_signal_numbers_contiguous c8db c8reqs
  refine ⟨h.1.trans (by decide), ?_, by decide⟩
  exact h.2 2 (by decide) 6 (by rw [h.1]; decide)

/-! ## C9 -/

/-- The audit payload used to exercise `create_position_update`. -/
def c9upd : PositionUpdateCreate :=
  { signal_id := 1, action := .CLOSE, position_size := 0 }

/-- A store whose `PositionUpdate` model is absent. -/
def c9dbModel : DbState :=
  { signals := [], position_updates := [], pos_update_schema := .modelMissing,
    next_signal_id := 1, next_update_id := 1 }

/-- A store whose `position_updates` table is absent. -/
def c9dbTable : DbState :=
  { signals := [], position_updates := [], pos_update_schema := .tableMissing,
    next_signal_id := 1, next_update_id := 1 }

/-- C9: with the `PositionUpdate` model absent, `create_position_update`
raises `NameError('logger')` out of its own degraded branch (crud.py never
defines `logger`), and with the table absent it re-raises the
`OperationalError` — in both cases the caller sees an exception, contrary to
the claimed log-and-continue behaviour. -/
theorem create_position_update_raises_when_schema_missing :
    create_position_update c9dbModel c9upd =
      Except.error (PyExc.nameError "logger") ∧
    create_position_update c9dbTable c9upd =
      Except.error (PyExc.operationalError
        "(sqlite3.OperationalError) no such table: position_updates") := by
  constructor
  · show (if pyInStr "models" "module 'models' has no attribute 'PositionUpdate'"
        && pyInStr "PositionUpdate" "module 'models' has no attribute 'PositionUpdate'"
      then (Except.error (PyExc.nameError "logger") :
        Except PyExc (PositionUpdateRow × DbState))
      else Except.error (PyExc.operationalError
        "module 'models' has no attribute 'PositionUpdate'")) =
      Except.error (PyExc.nameError "logger")
    rw [if_pos (by decide)]
  · show (if pyInStr "models" "(sqlite3.OperationalError) no such table: position_updates"
        && pyInStr "PositionUpdate" "(sqlite3.OperationalError) no such table: position_updates"
      then (Except.error (PyExc.nameError "logger") :
        Except PyExc (PositionUpdateRow × DbState))
      else Except.error (PyExc.operationalError
        "(sqlite3.OperationalError) no such table: position_updates")) =
      Except.error (PyExc.operationalError
        "(sqlite3.OperationalError) no such table: position_updates")
    rw [if_neg (by decide)]

/-! ## C10 -/

/-- C10: an OPEN event whose composite key is already in `active_signals` is
a complete no-op for the service: no signal row is created, nothing is
notified, and neither the store nor the mapping changes. -/
theorem open_existing_key_noop (st : ServiceState) (ev : OpenEvent) (now : ℚ)
    (h : dictContains st.active_signals
      (positionKey ev.category ev.symbol ev.side) = true) :
    handlePositionOpenService st ev now = (st, []) := by
  simp [handlePositionOpenService, h]

/-- The service state for the C10 witness: the key is already tracked. -/
def c10state : ServiceState :=
  { db := c7db, active_signals := [("linear_BTCUSDT_Buy", 1)] }

/-- The OPEN event for the C10 witness. -/
def c10ev : OpenEvent :=
  { symbol := "BTCUSDT", side := "Buy", size := 1, leverage := "1",
    avg_price := 0, category := "linear" }

/-- C10 witness: the no-op at a concrete state and event. -/
theorem open_existing_key_noop_witness :
    dictContains c10state.active_signals
      (positionKey c10ev.category c10ev.symbol c10ev.side) = true ∧
    handlePositionOpenService c10state c10ev 0 = (c10state, []) :=
  ⟨by decide, open_existing_key_noop c10state c10ev 0 (by decide)⟩

/-! ## C6 -/

theorem partialScan_first_closing (side : String) (pre post : List Fill)
    (f : Fill) (hpre : ∀ g ∈ pre, g.side = side) (hf : f.side ≠ side) :
    partialScan side (pre ++ f :: post) = (0 + f.closedPnl, some f.price) := by
  induction pre with
  | nil => simp [partialScan, hf]
  | cons g pre ih =>
      have hg : g.side = side := hpre g (List.mem_cons_self _ _)
      rw [List.cons_append, partialScan]
      simp only [hg, ne_eq, not_true_eq_false, if_false]
      exact ih (fun g' hg' => hpre g' (List.mem_cons_of_mem _ hg'))

/-- C6: on a partial close, only the first fill in fetch order whose side is
opposite the position's supplies `exit_price` and `realized_pnl`; the fills
after it (`post` is universally quantified) contribute nothing, and nothing
is averaged. -/
theorem partial_close_first_fill_only (p : Position) (category : String)
    (old_size old_avg_price : ℚ) (pre post : List Fill) (f : Fill)
    (hpre : ∀ g ∈ pre, g.side = p.side) (hf : f.side ≠ p.side)
    (hold : old_size ≠ 0) :
    (partialCloseEventData p category old_size old_avg_price
        ⟨0, pre ++ f :: post⟩).map
      (fun e => (e.exit_price, e.realized_pnl)) =
    some (some f.price, f.closedPnl) := by
  have hrows : respRows (⟨0, pre ++ f :: post⟩ : ApiResponse Fill) =
      pre ++ f :: post := rfl
  simp only [partialCloseEventData, hrows, hold, if_false,
    partialScan_first_closing p.side pre post f hpre hf, Option.map_some]
  simp

/-- The live position for the C6 witness. -/
def c6pos : Position :=
  { symbol := "BTCUSDT", side := "Buy", size := 1, leverage := "1",
    avgPrice := 50000, markPrice := 50000, unrealisedPnl := 0,
    unrealisedPnlPc := 0 }

/-- A same-side fill that must be skipped. -/
def c6pre : List Fill :=
  [{ side := "Buy", price := 7, orderQty := 1, closedPnl := 3,
     execTime := none }]

/-- The first closing fill. -/
def c6fill : Fill :=
  { side := "Sell", price := 9, orderQty := 1, closedPnl := 4,
    execTime := none }

/-- A later closing fill that must be ignored. -/
def c6post : List Fill :=
  [{ side := "Sell", price := 11, orderQty := 2, closedPnl := 100,
     execTime := none }]

/-- C6 witness: at a concrete window, the event reports the first closing
fill's price and PnL even though a later closing fill exists. -/
theorem partial_close_first_fill_only_witness :
    (partialCloseEventData c6pos "linear" 2 0
        ⟨0, c6pre ++ c6fill :: c6post⟩).map
      (fun e => (e.exit_price, e.realized_pnl)) =
    some (some c6fill.price, c6fill.closedPnl) :=
  partial_close_first_fill_only c6pos "linear" 2 0 c6pre c6post c6fill
    (by decide) (by decide) (by decide)

/-! ## C4 -/

theorem closeScan_foldl_realized (side : String) (fills : List Fill)
    (acc : CloseScan) :
    (fills.foldl (closeScanStep side) acc).realized_pnl =
      acc.realized_pnl +
        ((fills.filter (fun f => f.side ≠ side)).map (·.closedPnl)).sum := by
  induction fills generalizing acc with
  | nil => simp
  | cons f fills ih =>
      by_cases h : f.side = side
      · have hs : closeScanStep side acc f = acc := by
          simp [closeScanStep, h]
        have hfil : (f :: fills).filter (fun g => g.side ≠ side) =
            fills.filter (fun g => g.side ≠ side) := by
          simp [List.filter_cons, h]
        rw [List.foldl_cons, hs, hfil]
        exact ih acc
      · have hstep : (closeScanStep side acc f).realized_pnl =
            acc.realized_pnl + f.closedPnl := by
          simp [closeScanStep, h]
        have hfil : (f :: fills).filter (fun g => g.side ≠ side) =
            f :: fills.filter (fun g => g.side ≠ side) := by
          simp [List.filter_cons, h]
        rw [List.foldl_cons, ih (closeScanStep side acc f), hstep, hfil,
          List.map_cons, List.sum_cons, add_assoc]

theorem closeScan_foldl_prices (side : String) (fills : List Fill)
    (acc : CloseScan) :
    (fills.foldl (closeScanStep side) acc).exit_prices =
      acc.exit_prices ++
        ((fills.filter
          (fun f => f.side ≠ side ∧ f.price > 0 ∧ f.orderQty > 0)).map
          (·.price)) := by
  induction fills generalizing acc with
  | nil => simp
  | cons f fills ih =>
      by_cases h : f.side = side
      · have hs : closeScanStep side acc f = acc := by
          simp [closeScanStep, h]
        have hfil : (f :: fills).filter
              (fun g => g.side ≠ side ∧ g.price > 0 ∧ g.orderQty > 0) =
            fills.filter
              (fun g => g.side ≠ side ∧ g.price > 0 ∧ g.orderQty > 0) := by
          simp [List.filter_cons, h]
        rw [List.foldl_cons, hs, hfil]
        exact ih acc
      · by_cases hv : f.price > 0 ∧ f.orderQty > 0
        · have hstep : (closeScanStep side acc f).exit_prices =
              acc.exit_prices ++ [f.price] := by
            simp [closeScanStep, h, hv.1, hv.2]
          have hfil : (f :: fills).filter
                (fun g => g.side ≠ side ∧ g.price > 0 ∧ g.orderQty > 0) =
              f :: fills.filter
                (fun g => g.side ≠ side ∧ g.price > 0 ∧ g.orderQty > 0) := by
            simp [List.filter_cons, h, hv.1, hv.2]
          rw [List.foldl_cons, ih (closeScanStep side acc f), hstep, hfil,
            List.map_cons, List.append_assoc]
          rfl
        · have hcond : ¬(f.side ≠ side ∧ f.price > 0 ∧ f.orderQty > 0) := by
            intro hc
            exact hv hc.2
          have hstep : (closeScanStep side acc f).exit_prices =
              acc.exit_prices := by
            simp [closeScanStep, h, hv]
          have hfil : (f :: fills).filter
                (fun g => g.side ≠ side ∧ g.price > 0 ∧ g.orderQty > 0) =
              fills.filter
                (fun g => g.side ≠ side ∧ g.price > 0 ∧ g.orderQty > 0) := by
            simp [List.filter_cons, hcond]
          rw [List.foldl_cons, ih (closeScanStep side acc f), hstep, hfil]

theorem closeScan_foldl_quantities (side : String) (fills : List Fill)
    (acc : CloseScan) :
    (fills.foldl (closeScanStep side) acc).exit_quantities =
      acc.exit_quantities ++
        ((fills.filter
          (fun f => f.side ≠ side ∧ f.price > 0 ∧ f.orderQty > 0)).map
          (·.orderQty)) := by
  induction fills generalizing acc with
  | nil => simp
  | cons f fills ih =>
      by_cases h : f.side = side
      · have hs : closeScanStep side acc f = acc := by
          simp [closeScanStep, h]
        have hfil : (f :: fills).filter
              (fun g => g.side ≠ side ∧ g.price > 0 ∧ g.orderQty > 0) =
            fills.filter
              (fun g => g.side ≠ side ∧ g.price > 0 ∧ g.orderQty > 0) := by
          simp [List.filter_cons, h]
        rw [List.foldl_cons, hs, hfil]
        exact ih acc
      · by_cases hv : f.price > 0 ∧ f.orderQty > 0
        · have hstep : (closeScanStep side acc f).exit_quantities =
              acc.exit_quantities ++ [f.orderQty] := by
            simp [closeScanStep, h, hv.1, hv.2]
          have hfil : (f :: fills).filter
                (fun g => g.side ≠ side ∧ g.price > 0 ∧ g.orderQty > 0) =
              f :: fills.filter
                (fun g => g.side ≠ side ∧ g.price > 0 ∧ g.orderQty > 0) := by
            simp [List.filter_cons, h, hv.1, hv.2]
          rw [List.foldl_cons, ih (closeScanStep side acc f), hstep, hfil,
            List.map_cons, List.append_assoc]
          rfl
        · have hcond : ¬(f.side ≠ side ∧ f.price > 0 ∧ f.orderQty > 0) := by
            intro hc
            exact hv hc.2
          have hstep : (closeScanStep side acc f).exit_quantities =
              acc.exit_quantities := by
            simp [closeScanStep, h, hv]
          have hfil : (f :: fills).filter
                (fun g => g.side ≠ side ∧ g.price > 0 ∧ g.orderQty > 0) =
              fills.filter
                (fun g => g.side ≠ side ∧ g.price > 0 ∧ g.orderQty > 0) := by
            simp [List.filter_cons, hcond]
          rw [List.foldl_cons, ih (closeScanStep side acc f), hstep, hfil]

theorem closeScan_realized (side : String) (fills : List Fill) :
    (closeScan side fills).realized_pnl =
      ((fills.filter (fun f => f.side ≠ side)).map (·.closedPnl)).sum := by
  rw [closeScan, closeScan_foldl_realized]
  simp

theorem closeScan_prices (side : String) (fills : List Fill) :
    (closeScan side fills).exit_prices =
      ((fills.filter
        (fun f => f.side ≠ side ∧ f.price > 0 ∧ f.orderQty > 0)).map
        (·.price)) := by
  rw [closeScan, closeScan_foldl_prices]
  simp

theorem closeScan_quantities (side : String) (fills : List Fill) :
    (closeScan side fills).exit_quantities =
      ((fills.filter
        (fun f => f.side ≠ side ∧ f.price > 0 ∧ f.orderQty > 0)).map
        (·.orderQty)) := by
  rw [closeScan, closeScan_foldl_quantities]
  simp

/-- C4: on a full close, `realized_pnl` is the sum of `closedPnl` over every
opposite-side fill of the window; when at least one opposite-side fill has
positive price and quantity, the exit-price estimate is the quantity-weighted
average `Σ(price·qty)/Σ(qty)` over exactly those fills; when no such fill
exists the estimate falls back to the tracked entry's last mark price; and
when the window has no opposite-side fill at all (empty list or non-success
fetch) the realized PnL is 0. -/
theorem full_close_aggregation (old : TrackedPosition) (category : String)
    (execs : ApiResponse Fill) :
    ((closeEventData old category execs).realized_pnl =
      (((respRows execs).filter (fun f => f.side ≠ old.side)).map
        (·.closedPnl)).sum) ∧
    (((respRows execs).filter
        (fun f => f.side ≠ old.side ∧ f.price > 0 ∧ f.orderQty > 0)) ≠ [] →
      avgExitEstimate old.side old execs =
        (((respRows execs).filter
          (fun f => f.side ≠ old.side ∧ f.price > 0 ∧ f.orderQty > 0)).map
          (fun f => f.price * f.orderQty)).sum /
        (((respRows execs).filter
          (fun f => f.side ≠ old.side ∧ f.price > 0 ∧ f.orderQty > 0)).map
          (·.orderQty)).sum) ∧
    (((respRows execs).filter
        (fun f => f.side ≠ old.side ∧ f.price > 0 ∧ f.orderQty > 0)) = [] →
      avgExitEstimate old.side old execs = old.mark_price) ∧
    (((respRows execs).filter (fun f => f.side ≠ old.side)) = [] →
      (closeEventData old category execs).realized_pnl = 0) := by
  have hreal : (closeEventData old category execs).realized_pnl =
      (closeScan old.side (respRows execs)).realized_pnl := rfl
  refine ⟨?_, ?_, ?_, ?_⟩
  · rw [hreal, closeScan_realized]
  · intro hv
    have hscanp := closeScan_prices old.side (respRows execs)
    have hscanq := closeScan_quantities old.side (respRows execs)
    have hqpos : ∀ x ∈ ((respRows execs).filter
        (fun f => f.side ≠ old.side ∧ f.price > 0 ∧ f.orderQty > 0)).map
        (·.orderQty), 0 < x := by
      intro x hx
      rcases List.mem_map.1 hx with ⟨f, hf, rfl⟩
      exact (of_decide_eq_true (List.mem_filter.1 hf).2).2.2
    have hppos : ∀ x ∈ ((respRows execs).filter
        (fun f => f.side ≠ old.side ∧ f.price > 0 ∧ f.orderQty > 0)).map
        (fun f => f.price * f.orderQty), 0 < x := by
      intro x hx
      rcases List.mem_map.1 hx with ⟨f, hf, rfl⟩
      have hpred := of_decide_eq_true (List.mem_filter.1 hf).2
      exact mul_pos hpred.2.1 hpred.2.2
    have hT : 0 < (((respRows execs).filter
        (fun f => f.side ≠ old.side ∧ f.price > 0 ∧ f.orderQty > 0)).map
        (·.orderQty)).sum :=
      List.sum_pos _ hqpos (fun h => hv (List.map_eq_nil_iff.1 h))
    have hS : 0 < (((respRows execs).filter
        (fun f => f.side ≠ old.side ∧ f.price > 0 ∧ f.orderQty > 0)).map
        (fun f => f.price * f.orderQty)).sum :=
      List.sum_pos _ hppos (fun h => hv (List.map_eq_nil_iff.1 h))
    have hw : weightedAvgExit (closeScan old.side (respRows execs)) =
        some ((((respRows execs).filter
          (fun f => f.side ≠ old.side ∧ f.price > 0 ∧ f.orderQty > 0)).map
          (fun f => f.price * f.orderQty)).sum /
        (((respRows execs).filter
          (fun f => f.side ≠ old.side ∧ f.price > 0 ∧ f.orderQty > 0)).map
          (·.orderQty)).sum) := by
      rw [weightedAvgExit, hscanp, hscanq]
      rw [if_pos ⟨fun h => hv (List.map_eq_nil_iff.1 h),
        fun h => hv (List.map_eq_nil_iff.1 h)⟩]
      rw [if_pos hT]
      rw [List.zip_map', List.map_map]
      rfl
    have hpos : 0 < (((respRows execs).filter
        (fun f => f.side ≠ old.side ∧ f.price > 0 ∧ f.orderQty > 0)).map
        (fun f => f.price * f.orderQty)).sum /
      (((respRows execs).filter
        (fun f => f.side ≠ old.side ∧ f.price > 0 ∧ f.orderQty > 0)).map
        (·.orderQty)).sum := div_pos hS hT
    have htr : truthyOptQ (some ((((respRows execs).filter
        (fun f => f.side ≠ old.side ∧ f.price > 0 ∧ f.orderQty > 0)).map
        (fun f => f.price * f.orderQty)).sum /
      (((respRows execs).filter
        (fun f => f.side ≠ old.side ∧ f.price > 0 ∧ f.orderQty > 0)).map
        (·.orderQty)).sum)) = true := decide_eq_true hpos.ne'
    rw [avgExitEstimate, hw, if_pos htr]
    rfl
  · intro hvnil
    have hscanp := closeScan_prices old.side (respRows execs)
    have hw : weightedAvgExit (closeScan old.side (respRows execs)) =
        none := by
      rw [weightedAvgExit, if_neg]
      intro hcontra
      exact hcontra.1 (by rw [hscanp, hvnil]; rfl)
    rw [avgExitEstimate, hw]
    rfl
  · intro hc
    rw [hreal, closeScan_realized, hc]
    rfl

/-- The tracked entry for the C4 witness. -/
def c4old : TrackedPosition :=
  { symbol := "BTCUSDT", side := "Buy", size := 2, leverage := "5",
    avg_price := 50000, mark_price := 49000, unrealized_pnl := 0,
    percentage := 0, category := "linear", last_update := 0 }

/-- The C4 witness window: a same-side fill, two valid closing fills and one
closing fill with price 0. -/
def c4execs : ApiResponse Fill :=
  ⟨0,
    [{ side := "Buy", price := 100, orderQty := 1, closedPnl := 9,
       execTime := none },
     { side := "Sell", price := 60, orderQty := 2, closedPnl := 5,
       execTime := some 1700000000000 },
     { side := "Sell", price := 0, orderQty := 1, closedPnl := 3,
       execTime := none },
     { side := "Sell", price := 50, orderQty := 1, closedPnl := 2,
       execTime := none }]⟩

/-- A failed execution fetch for the C4 fallback branch. -/
def c4fail : ApiResponse Fill := ⟨-1, []⟩

/-! ## Service close-handler helper lemmas (shared by C3 and C5) -/

theorem get_signal_some_id (db : DbState) (sid : Nat) (r : SignalRow)
    (h : get_signal db sid = some r) : r.id = sid := by
  have h' : db.signals.find? (fun row => row.id = sid) = some r := h
  have h2 := List.find?_some h'
  exact of_decide_eq_true h2

theorem update_signal_found (db : DbState) (sid : Nat) (u : SignalUpdate)
    (r : SignalRow) (h : get_signal db sid = some r) :
    update_signal db sid u =
      (some (applySignalUpdate r u), updateSignalRows db sid u) := by
  simp [update_signal, h, updateSignalRows]

/-- The store after `mark_signal_completed` found its row. -/
def markCompletedRows (db : DbState) (sid : Nat) : DbState :=
  let rows := updateFirstRow db.signals sid
    (fun row => { row with is_completed := true })
  { db with signals := rows }

theorem mark_signal_completed_found (db : DbState) (sid : Nat)
    (r : SignalRow) (h : get_signal db sid = some r) :
    mark_signal_completed db sid =
      (some { r with is_completed := true }, markCompletedRows db sid) := by
  simp [mark_signal_completed, h, markCompletedRows]

theorem get_signal_mark (db : DbState) (sid : Nat) (r : SignalRow)
    (h : get_signal db sid = some r) :
    get_signal (markCompletedRows db sid) sid =
      some { r with is_completed := true } := by
  have h' : db.signals.find? (fun row => row.id = sid) = some r := h
  simp only [markCompletedRows, get_signal]
  rw [updateFirstRow_find? db.signals sid
    (fun row => { row with is_completed := true }) (fun row => rfl), h']
  rfl

theorem cpu_match_signals (db : DbState) (u : PositionUpdateCreate) :
    (match create_position_update db u with
      | .ok (_, d) => d
      | .error _ => db).signals = db.signals := by
  rcases db with ⟨sig, pu, sch, n1, n2⟩
  cases sch
  · rfl
  · simp only [create_position_update]
    rw [if_pos (by decide)]
  · simp only [create_position_update]
    rw [if_neg (by decide)]

theorem get_signal_cpu_match (db : DbState) (u : PositionUpdateCreate)
    (sid : Nat) :
    get_signal (match create_position_update db u with
      | .ok (_, d) => d
      | .error _ => db) sid = get_signal db sid := by
  show (match create_position_update db u with
      | .ok (_, d) => d
      | .error _ => db).signals.find? (fun row => row.id = sid) =
    db.signals.find? (fun row => row.id = sid)
  rw [cpu_match_signals]

/-- What `_handle_position_close` does when the key is active and the signal
row exists: the stored row is the sparse-patched row marked completed, the
key leaves `active_signals`, and exit is notified for that signal id. -/
theorem handleCloseService_spec (db : DbState)
    (active : List (String × Nat)) (ev : CloseEvent) (sid : Nat)
    (r : SignalRow)
    (hact : dictGet? active (positionKey ev.category ev.symbol ev.side) =
      some sid)
    (hrow : get_signal db sid = some r) :
    get_signal (handleCloseService ⟨db, active⟩ ev).1.db sid =
      some { applySignalUpdate r (closeSignalUpdate ev) with
        is_completed := true } ∧
    (handleCloseService ⟨db, active⟩ ev).1.active_signals =
      dictErase active (positionKey ev.category ev.symbol ev.side) ∧
    (handleCloseService ⟨db, active⟩ ev).2 = [.exit sid] := by
  have hid : r.id = sid := get_signal_some_id db sid r hrow
  have h1 : get_signal (updateSignalRows db sid (closeSignalUpdate ev)) sid =
      some (applySignalUpdate r (closeSignalUpdate ev)) := by
    have := get_signal_update_signal db sid (closeSignalUpdate ev)
    rw [update_signal_found db sid (closeSignalUpdate ev) r hrow] at this
    rw [this, hrow]
    rfl
  have hmark := mark_signal_completed_found _ sid _ h1
  have h2 := get_signal_mark _ sid _ h1
  have hunfold : handleCloseService ⟨db, active⟩ ev =
      (⟨match create_position_update
            (markCompletedRows (updateSignalRows db sid
              (closeSignalUpdate ev)) sid)
            { signal_id := sid, action := .CLOSE, position_size := 0,
              price := ev.exit_price, close_percentage := some 100,
              realized_pnl := some ev.realized_pnl } with
          | .ok (_, d) => d
          | .error _ => markCompletedRows (updateSignalRows db sid
              (closeSignalUpdate ev)) sid,
        dictErase active (positionKey ev.category ev.symbol ev.side)⟩,
        [.exit (applySignalUpdate r (closeSignalUpdate ev)).id]) := by
    simp only [handleCloseService, hact]
    rw [update_signal_found db sid (closeSignalUpdate ev) r hrow, hmark]
  rw [hunfold]
  refine ⟨?_, rfl, ?_⟩
  · rw [get_signal_cpu_match, h2]
  · rw [applySignalUpdate_id, hid]

/-- C4 witness: the aggregation equalities at a concrete window, and the
mark-price fallback at a failed fetch. -/
theorem full_close_aggregation_witness :
    ((closeEventData c4old "linear" c4execs).realized_pnl =
      (((respRows c4execs).filter (fun f => f.side ≠ c4old.side)).map
        (·.closedPnl)).sum) ∧
    (avgExitEstimate c4old.side c4old c4execs =
      (((respRows c4execs).filter
        (fun f => f.side ≠ c4old.side ∧ f.price > 0 ∧ f.orderQty > 0)).map
        (fun f => f.price * f.orderQty)).sum /
      (((respRows c4execs).filter
        (fun f => f.side ≠ c4old.side ∧ f.price > 0 ∧ f.orderQty > 0)).map
        (·.orderQty)).sum) ∧
    (avgExitEstimate c4old.side c4old c4fail = c4old.mark_price ∧
      (closeEventData c4old "linear" c4fail).realized_pnl = 0) :=
  ⟨(full_close_aggregation c4old "linear" c4execs).1,
    (full_close_aggregation c4old "linear" c4execs).2.1 (by decide),
    (full_close_aggregation c4old "linear" c4fail).2.2.1 (by decide),
    (full_close_aggregation c4old "linear" c4fail).2.2.2 (by decide)⟩

/-! ## C5 -/

/-- C5 (amended): the profit percentage stored on a full close is the
entry/exit formula only when the exit-price estimate is truthy and the entry
price is positive; otherwise — entry price zero included — the service
replaces the tracker's `None` by the PnL-based fallback
`realized_pnl / old_size * 100`, so the stored value is never null. -/
theorem full_close_profit_stored (old : TrackedPosition) (category : String)
    (execs : ApiResponse Fill) (db : DbState)
    (active : List (String × Nat)) (sid : Nat) (r : SignalRow)
    (hact : dictGet? active (positionKey category old.symbol old.side) =
      some sid)
    (hrow : get_signal db sid = some r) :
    (get_signal (handleCloseService ⟨db, active⟩
        (closeEventData old category execs)).1.db sid).map
      (fun row => row.profit_percentage) =
    some (some
      (if avgExitEstimate old.side old execs ≠ 0 ∧ old.avg_price > 0 then
        (if pyUpper old.side = "BUY" then
          (avgExitEstimate old.side old execs - old.avg_price) /
            old.avg_price * 100
         else
          (old.avg_price - avgExitEstimate old.side old execs) /
            old.avg_price * 100)
       else calcProfitPercentage (closeEventData old category execs))) := by
  have hact' : dictGet? active
      (positionKey (closeEventData old category execs).category
        (closeEventData old category execs).symbol
        (closeEventData old category execs).side) = some sid := hact
  have hspec := handleCloseService_spec db active
    (closeEventData old category execs) sid r hact' hrow
  rw [hspec.1]
  show some (some
    ((match (closeEventData old category execs).profit_percentage with
      | some v => v
      | none => calcProfitPercentage (closeEventData old category execs)) :
      ℚ)) =
    some (some
      (if avgExitEstimate old.side old execs ≠ 0 ∧ old.avg_price > 0 then
        (if pyUpper old.side = "BUY" then
          (avgExitEstimate old.side old execs - old.avg_price) /
            old.avg_price * 100
         else
          (old.avg_price - avgExitEstimate old.side old execs) /
            old.avg_price * 100)
       else calcProfitPercentage (closeEventData old category execs)))
  congr 2
  have hev : (closeEventData old category execs).profit_percentage =
      closeProfitPercentage old (avgExitEstimate old.side old execs) := rfl
  rw [hev, closeProfitPercentage]
  by_cases hcond : avgExitEstimate old.side old execs ≠ 0 ∧
      old.avg_price > 0
  · rw [if_pos hcond, if_pos hcond]
    by_cases hbuy : pyUpper old.side = "BUY"
    · rw [if_pos hbuy, if_pos hbuy]
    · rw [if_neg hbuy, if_neg hbuy]
  · rw [if_neg hcond, if_neg hcond]

/-- The tracked entry for the C5 witness: positive entry and mark prices. -/
def c5wold : TrackedPosition :=
  { symbol := "ETHUSDT", side := "Buy", size := 1, leverage := "1",
    avg_price := 100, mark_price := 110, unrealized_pnl := 0,
    percentage := 0, category := "linear", last_update := 0 }

/-- The active mapping for the C5 witness. -/
def c5wactive : List (String × Nat) := [("linear_ETHUSDT_Buy", 1)]

/-- C5 witness: the amended statement at a concrete close (failed execution
fetch, so the estimate is the mark price). -/
theorem full_close_profit_stored_witness :
    (get_signal (handleCloseService ⟨c7db, c5wactive⟩
        (closeEventData c5wold "linear" c4fail)).1.db 1).map
      (fun row => row.profit_percentage) =
    some (some
      (if avgExitEstimate c5wold.side c5wold c4fail ≠ 0 ∧
          c5wold.avg_price > 0 then
        (if pyUpper c5wold.side = "BUY" then
          (avgExitEstimate c5wold.side c5wold c4fail - c5wold.avg_price) /
            c5wold.avg_price * 100
         else
          (c5wold.avg_price - avgExitEstimate c5wold.side c5wold c4fail) /
            c5wold.avg_price * 100)
       else calcProfitPercentage (closeEventData c5wold "linear" c4fail))) :=
  full_close_profit_stored c5wold "linear" c4fail c7db c5wactive 1 c7row
    (by decide) (by decide)

/-- The tracked entry for the C5 counterexample: entry price zero. -/
def c5old : TrackedPosition :=
  { symbol := "BTCUSDT", side := "Buy", size := 2, leverage := "1",
    avg_price := 0, mark_price := 0, unrealized_pnl := 0, percentage := 0,
    category := "linear", last_update := 0 }

/-- One closing fill with reported closed PnL 5 (price and qty 0, so no
exit-price estimate). -/
def c5execs : ApiResponse Fill :=
  ⟨0, [{ side := "Sell", price := 0, orderQty := 0, closedPnl := 5,
         execTime := none }]⟩

/-- The active mapping for the C5 counterexample. -/
def c5active : List (String × Nat) := [("linear_BTCUSDT_Buy", 1)]

/-- C5 counterexample: with entry price 0 (where the claim requires a null
stored profit percentage), the full-close pipeline stores
`realized_pnl / old_size * 100 = 5 / 2 * 100 = 250.0` instead. -/
theorem stored_profit_not_null_on_zero_entry :
    c5old.avg_price = 0 ∧
    (get_signal (handleCloseService ⟨c7db, c5active⟩
        (closeEventData c5old "linear" c5execs)).1.db 1).map
      (fun row => row.profit_percentage) = some (some 250) := by
  refine ⟨rfl, ?_⟩
  have hspec := handleCloseService_spec c7db c5active
    (closeEventData c5old "linear" c5execs) 1 c7row (by decide) (by decide)
  rw [hspec.1]
  show some (some
    ((match (closeEventData c5old "linear" c5execs).profit_percentage with
      | some v => v
      | none =>
          calcProfitPercentage (closeEventData c5old "linear" c5execs)) :
      ℚ)) = some (some (250 : ℚ))
  have hnone : (closeEventData c5old "linear" c5execs).profit_percentage =
      none := rfl
  rw [hnone]
  have hcalc : calcProfitPercentage (closeEventData c5old "linear" c5execs) =
      250 := by
    have h1 : (closeEventData c5old "linear" c5execs).old_size = 2 := rfl
    have h2 : (closeEventData c5old "linear" c5execs).realized_pnl =
        0 + 5 := rfl
    show (if (closeEventData c5old "linear" c5execs).old_size = 0 then (0:ℚ)
      else (closeEventData c5old "linear" c5execs).realized_pnl /
        (closeEventData c5old "linear" c5execs).old_size * 100) = 250
    rw [h1, h2, if_neg (by norm_num)]
    norm_num
  rw [hcalc]

/-! ## C1 -/

/-- The tracked entry for the C1 failing input. -/
def c1pos : TrackedPosition :=
  { symbol := "BTCUSDT", side := "Buy", size := 1, leverage := "10",
    avg_price := 0, mark_price := 50100, unrealized_pnl := 5,
    percentage := 1, category := "linear", last_update := 0 }

/-- C1: a poll cycle whose only category fetch fails (`retCode == -1`) is
not a no-op — `_check_positions` never adds the failed category's keys to
`current_position_keys`, so the disappearance sweep emits a CLOSE event for
the tracked key and empties the tracked map. -/
theorem fetch_failure_not_noop :
    checkPositions [("linear_BTCUSDT_Buy", c1pos)] ["linear"]
      (fun _ => ⟨-1, []⟩) (fun _ _ => ⟨-1, []⟩) 99 =
    ([], [Event.close
      { symbol := "BTCUSDT", side := "Buy", size := 0, old_size := 1,
        close_percentage := 100, realized_pnl := 0, category := "linear",
        avg_price := 0, exit_price := some 50100, exit_time := some 99,
        profit_percentage := none }]) := by decide

/-! ## C2 -/

/-- The stored open signal for the C2 failing input. -/
def c2row : SignalRow :=
  { id := 1, signal_number := 1, symbol := "BTCUSDT", category := .LINEAR,
    signal_type := .BUY, action := .OPEN, position_size := 1,
    old_position_size := none, entry_price := some 42, exit_price := none,
    leverage := "10", close_percentage := none, realized_pnl := none,
    unrealized_pnl := none, profit_percentage := none, entry_time := 0,
    exit_time := none, is_completed := false }

/-- A store holding just that non-completed signal. -/
def c2db : DbState :=
  { signals := [c2row], position_updates := [], pos_update_schema := .ok,
    next_signal_id := 2, next_update_id := 1 }

/-- The matching live exchange position (size 3, Bybit capitalization
`"Buy"`). -/
def c2live : Position :=
  { symbol := "BTCUSDT", side := "Buy", size := 3, leverage := "10",
    avgPrice := 50000, markPrice := 50100, unrealisedPnl := 0,
    unrealisedPnlPc := 0 }

/-- C2: the stored signal's composite key (category lowercased, symbol, side
in the exchange's `Buy` capitalization) matches the live position, yet
startup reconciliation seeds neither map, because the snapshot is keyed with
`side.upper()` (`"BUY"`) while the signal-derived key uses
`.lower().capitalize()` (`"Buy"`). -/
theorem startup_reconciliation_never_seeds :
    positionKey (pyLower SignalCategory.LINEAR.value) c2row.symbol
      (pyCapitalize (pyLower SignalType.BUY.value)) =
      positionKey "linear" c2live.symbol c2live.side ∧
    c2live.size > 0 ∧
    (¬ c2row.is_completed) ∧
    initializeActiveSignals c2db ["linear"] (fun _ => ⟨0, [c2live]⟩) 99 =
      ([], []) := by decide

/-! ## C3: string lemmas for position keys -/

theorem splitChars_ne_nil (sep : Char) (l : List Char) :
    splitChars sep l ≠ [] := by
  cases l with
  | nil => simp [splitChars]
  | cons c rest =>
      by_cases h : c = sep
      · simp [splitChars, h]
      · simp only [splitChars, if_neg h]
        cases splitChars sep rest <;> simp

theorem splitChars_of_not_mem (sep : Char) (l : List Char) (h : sep ∉ l) :
    splitChars sep l = [l] := by
  induction l with
  | nil => rfl
  | cons c rest ih =>
      have hc : c ≠ sep := fun hc => h (hc ▸ List.mem_cons_self _ _)
      have hrest : sep ∉ rest := fun hr => h (List.mem_cons_of_mem _ hr)
      simp only [splitChars, if_neg hc, ih hrest]

theorem splitChars_append (sep : Char) (l rest : List Char) (h : sep ∉ l) :
    splitChars sep (l ++ sep :: rest) = l :: splitChars sep rest := by
  induction l with
  | nil => simp [splitChars]
  | cons c l ih =>
      have hc : c ≠ sep := fun hc => h (hc ▸ List.mem_cons_self _ _)
      have hl : sep ∉ l := fun hr => h (List.mem_cons_of_mem _ hr)
      rw [List.cons_append]
      simp only [splitChars, if_neg hc, ih hl]

/-- A component string that contains no underscore. -/
def sepFree (s : String) : Prop := '_' ∉ s.toList

theorem positionKey_data (c s sd : String) :
    (positionKey c s sd).toList =
      c.toList ++ '_' :: (s.toList ++ '_' :: sd.toList) := by
  show (c ++ "_" ++ s ++ "_" ++ sd).data =
    c.data ++ '_' :: (s.data ++ '_' :: sd.data)
  simp [String.data_append]

theorem pySplit_positionKey (c s sd : String) (hc : sepFree c)
    (hs : sepFree s) (hsd : sepFree sd) :
    pySplit (positionKey c s sd) '_' = [c, s, sd] := by
  rw [pySplit]
  have hdata : (positionKey c s sd).toList =
      c.toList ++ '_' :: (s.toList ++ '_' :: sd.toList) :=
    positionKey_data c s sd
  rw [hdata, splitChars_append '_' _ _ hc, splitChars_append '_' _ _ hs,
    splitChars_of_not_mem '_' _ hsd]
  show [String.mk c.data, String.mk s.data, String.mk sd.data] = [c, s, sd]
  rfl

/-- Python's `"_".join`, used only to state that splitting is injective. -/
def joinChars (sep : Char) : List (List Char) → List Char
  | [] => []
  | [g] => g
  | g :: h :: t => g ++ sep :: joinChars sep (h :: t)

theorem joinChars_cons_cons (sep : Char) (c : Char) (g : List Char)
    (gs : List (List Char)) :
    joinChars sep ((c :: g) :: gs) = c :: joinChars sep (g :: gs) := by
  cases gs <;> rfl

theorem joinChars_splitChars (sep : Char) (l : List Char) :
    joinChars sep (splitChars sep l) = l := by
  induction l with
  | nil => rfl
  | cons c rest ih =>
      rcases hsp : splitChars sep rest with _ | ⟨g, gs⟩
      · exact absurd hsp (splitChars_ne_nil sep rest)
      · by_cases h : c = sep
        · subst h
          have hstep : splitChars c (c :: rest) = [] :: splitChars c rest := by
            show (if c = c then [] :: splitChars c rest
              else match splitChars c rest with
                | [] => [[c]]
                | g :: gs => (c :: g) :: gs) = [] :: splitChars c rest
            rw [if_pos rfl]
          rw [hstep, hsp]
          show [] ++ c :: joinChars c (g :: gs) = c :: rest
          rw [List.nil_append, ← hsp, ih]
        · simp only [splitChars, if_neg h, hsp]
          rw [joinChars_cons_cons, ← hsp, ih]

theorem positionKey_of_pySplit (k a b c : String)
    (h : pySplit k '_' = [a, b, c]) : k = positionKey a b c := by
  rw [pySplit] at h
  rcases hsp : splitChars '_' k.toList with _ | ⟨l1, rest⟩
  · exact absurd hsp (splitChars_ne_nil _ _)
  rcases rest with _ | ⟨l2, rest2⟩
  · rw [hsp] at h; cases h
  rcases rest2 with _ | ⟨l3, rest3⟩
  · rw [hsp] at h; cases h
  rcases rest3 with _ | ⟨l4, rest4⟩
  · rw [hsp] at h
    have h1 : String.mk l1 = a := by injection h
    have h2 : String.mk l2 = b := by
      injection h with _ h'; injection h'
    have h3 : String.mk l3 = c := by
      injection h with _ h'; injection h' with _ h''; injection h''
    have hjoin := joinChars_splitChars '_' k.toList
    rw [hsp] at hjoin
    have hdata : k.toList = l1 ++ '_' :: (l2 ++ '_' :: l3) := by
      rw [← hjoin]; rfl
    have hpk : (positionKey a b c).toList =
        a.toList ++ '_' :: (b.toList ++ '_' :: c.toList) :=
      positionKey_data a b c
    have hfin : k.toList = (positionKey a b c).toList := by
      rw [hdata, hpk, ← h1, ← h2, ← h3]
      rfl
    show k = positionKey a b c
    cases k with
    | mk kd =>
        cases hpos : positionKey a b c with
        | mk pd =>
            have : kd = pd := by
              have := hfin
              rw [hpos] at this
              exact this
            rw [this]
  · rw [hsp] at h; cases h

theorem dictGet?_mem {α : Type} (d : List (String × α)) (k : String) (v : α)
    (h : dictGet? d k = some v) : (k, v) ∈ d := by
  induction d with
  | nil => cases h
  | cons hd tl ih =>
      obtain ⟨k0, v0⟩ := hd
      by_cases h0 : k0 = k
      · subst h0
        rw [dictGet?] at h
        simp only [if_pos rfl] at h
        cases h
        exact List.mem_cons_self _ _
      · rw [dictGet?] at h
        simp only [if_neg h0] at h
        exact List.mem_cons_of_mem _ (ih h)

theorem mem_dictInsert_cases {α : Type} (d : List (String × α))
    (k : String) (v : α) (e : String × α) (h : e ∈ dictInsert d k v) :
    e ∈ d ∨ e = (k, v) := by
  induction d with
  | nil =>
      simp [dictInsert] at h
      exact Or.inr h
  | cons hd tl ih =>
      obtain ⟨k0, v0⟩ := hd
      by_cases h0 : k0 = k
      · subst h0
        rw [dictInsert] at h
        simp only [if_pos rfl] at h
        rcases List.mem_cons.1 h with h1 | h1
        · exact Or.inr (h1.trans rfl)
        · exact Or.inl (List.mem_cons_of_mem _ h1)
      · rw [dictInsert] at h
        simp only [if_neg h0] at h
        rcases List.mem_cons.1 h with h1 | h1
        · exact Or.inl (h1 ▸ List.mem_cons_self _ _)
        · rcases ih h1 with h2 | h2
          · exact Or.inl (List.mem_cons_of_mem _ h2)
          · exact Or.inr h2

theorem mem_dictErase {α : Type} (d : List (String × α)) (k : String)
    (e : String × α) (h : e ∈ dictErase d k) : e ∈ d := by
  induction d with
  | nil => cases h
  | cons hd tl ih =>
      obtain ⟨k0, v0⟩ := hd
      by_cases h0 : k0 = k
      · rw [dictErase] at h
        simp only [if_pos h0] at h
        exact List.mem_cons_of_mem _ h
      · rw [dictErase] at h
        simp only [if_neg h0] at h
        rcases List.mem_cons.1 h with h1 | h1
        · exact h1 ▸ List.mem_cons_self _ _
        · exact List.mem_cons_of_mem _ (ih h1)

theorem dictContains_eq_isSome {α : Type} (d : List (String × α))
    (k : String) : dictContains d k = (dictGet? d k).isSome := by
  induction d with
  | nil => rfl
  | cons hd tl ih =>
      obtain ⟨k0, v0⟩ := hd
      by_cases h0 : k0 = k
      · rw [dictContains, dictGet?]
        simp [h0]
      · rw [dictContains, dictGet?]
        simp only [if_neg h0]
        exact ih

/-- Well-formedness the running tracker maintains: every key splits back
into the entry's own category, symbol and side. -/
def wfTracked (m : TrackedMap) : Prop :=
  ∀ e ∈ m, pySplit e.1 '_' = [e.2.category, e.2.symbol, e.2.side]

theorem wfTracked_erase (m : TrackedMap) (k : String) (h : wfTracked m) :
    wfTracked (dictErase m k) :=
  fun e he => h e (mem_dictErase m k e he)

theorem wfTracked_insert (m : TrackedMap) (k : String) (v : TrackedPosition)
    (h : wfTracked m)
    (hv : pySplit k '_' = [v.category, v.symbol, v.side]) :
    wfTracked (dictInsert m k v) := by
  intro e he
  rcases mem_dictInsert_cases m k v e he with h1 | h1
  · exact h e h1
  · rw [h1]
    exact hv

theorem partialCloseEventData_fields (p : Position) (c : String)
    (os oa : ℚ) (ex : ApiResponse Fill) (e : PartialCloseEvent)
    (h : partialCloseEventData p c os oa ex = some e) :
    e.symbol = p.symbol ∧ e.side = p.side ∧ e.category = c := by
  rw [partialCloseEventData] at h
  by_cases h0 : os = 0
  · rw [if_pos h0] at h
    cases h
  · rw [if_neg h0] at h
    cases h
    exact ⟨rfl, rfl, rfl⟩

theorem dictGet?_none_iff_not_mem {α : Type} (d : List (String × α))
    (k : String) : dictGet? d k = none ↔ k ∉ dictKeys d := by
  constructor
  · intro h hmem
    induction d with
    | nil => cases hmem
    | cons hd tl ih =>
        obtain ⟨k0, v0⟩ := hd
        by_cases h0 : k0 = k
        · rw [dictGet?] at h
          simp only [if_pos h0] at h
          cases h
        · rw [dictGet?] at h
          simp only [if_neg h0] at h
          rw [dictKeys_cons] at hmem
          rcases List.mem_cons.1 hmem with h1 | h1
          · exact h0 h1.symm
          · exact ih h h1
  · exact dictGet?_eq_none_of_not_mem d k

/-- C3 helper: a category pass that sees no live row whose key is `k` leaves
`k`'s entry untouched, emits no event keyed `k`, and preserves the
well-formedness and key-uniqueness of the tracked map. -/
theorem processPositions_spec (k c : String)
    (getExec : String → String → ApiResponse Fill) (now : ℚ)
    (positions : List Position) :
    ∀ (tracked : TrackedMap),
    (∀ q ∈ positions, positionKey c q.symbol q.side ≠ k) →
    wfTracked tracked →
    (dictKeys tracked).Nodup →
    sepFree c →
    (∀ q ∈ positions, sepFree q.symbol ∧ sepFree q.side) →
    dictGet? (processPositions tracked positions c getExec now).1 k =
        dictGet? tracked k ∧
    ((processPositions tracked positions c getExec now).2.filter
      (fun e => eventKey e = k)) = [] ∧
    wfTracked (processPositions tracked positions c getExec now).1 ∧
    (dictKeys (processPositions tracked positions c getExec now).1).Nodup := by
  induction positions with
  | nil =>
      intro tracked _ hwf hnd _ _
      exact ⟨rfl, rfl, hwf, hnd⟩
  | cons q rest ih =>
      intro tracked habs hwf hnd hc hclean
      have hkq : positionKey c q.symbol q.side ≠ k :=
        habs q (List.mem_cons_self _ _)
      have habs' : ∀ q' ∈ rest, positionKey c q'.symbol q'.side ≠ k :=
        fun q' h => habs q' (List.mem_cons_of_mem _ h)
      have hclean' : ∀ q' ∈ rest, sepFree q'.symbol ∧ sepFree q'.side :=
        fun q' h => hclean q' (List.mem_cons_of_mem _ h)
      have hcleanq := hclean q (List.mem_cons_self _ _)
      have hsplitq : pySplit (positionKey c q.symbol q.side) '_' =
          [c, q.symbol, q.side] :=
        pySplit_positionKey c q.symbol q.side hc hcleanq.1 hcleanq.2
      by_cases hsz : q.size = 0
      · by_cases hfound : ∃ old,
            dictGet? tracked (positionKey c q.symbol q.side) = some old
        · obtain ⟨old, hold⟩ := hfound
          have hct : dictContains tracked
              (positionKey c q.symbol q.side) = true := by
            rw [dictContains_eq_isSome, hold]
            rfl
          have hstep : (if dictContains tracked
                (positionKey c q.symbol q.side) then
              handlePositionClose tracked (positionKey c q.symbol q.side) c
                getExec
            else (tracked, [])) =
              (dictErase tracked (positionKey c q.symbol q.side),
               [Event.close
                 (closeEventData old c (getExec c old.symbol))]) := by
            rw [if_pos (by rw [hct])]
            rw [handlePositionClose, hold]
          have hwf1 := wfTracked_erase tracked
            (positionKey c q.symbol q.side) hwf
          have hnd1 := dictKeys_erase_nodup tracked
            (positionKey c q.symbol q.side) hnd
          obtain ⟨ih1, ih2, ih3, ih4⟩ :=
            ih (dictErase tracked (positionKey c q.symbol q.side)) habs'
              hwf1 hnd1 hc hclean'
          have hekey : eventKey (Event.close
              (closeEventData old c (getExec c old.symbol))) =
              positionKey c q.symbol q.side := by
            have hmem := dictGet?_mem tracked
              (positionKey c q.symbol q.side) old hold
            have hwfold := hwf _ hmem
            have : ([old.category, old.symbol, old.side] :
                List String) = [c, q.symbol, q.side] := by
              rw [← hwfold, hsplitq]
            have hsym : old.symbol = q.symbol := by injection this with _ h2; injection h2
            have hside : old.side = q.side := by
              injection this with _ h2; injection h2 with _ h3; injection h3
            show positionKey c old.symbol old.side = _
            rw [hsym, hside]
          simp only [processPositions, if_pos hsz, hstep]
          refine ⟨?_, ?_, ih3, ih4⟩
          · rw [ih1, dictGet?_erase_ne _ _ _ hkq]
          · rw [List.filter_append, ih2, List.append_nil]
            rw [List.filter_cons]
            have : ¬ (eventKey (Event.close
                (closeEventData old c (getExec c old.symbol))) = k) := by
              rw [hekey]
              exact hkq
            simp only [this, decide_eq_true_eq, if_neg this]
            simp [this]
        · have hnone : dictGet? tracked
              (positionKey c q.symbol q.side) = none := by
            cases hg : dictGet? tracked (positionKey c q.symbol q.side) with
            | none => rfl
            | some v => exact absurd ⟨v, hg⟩ hfound
          have hct : dictContains tracked
              (positionKey c q.symbol q.side) = false := by
            rw [dictContains_eq_isSome, hnone]
            rfl
          have hstep : (if dictContains tracked
                (positionKey c q.symbol q.side) then
              handlePositionClose tracked (positionKey c q.symbol q.side) c
                getExec
            else (tracked, [])) = (tracked, []) := by
            rw [if_neg (by rw [hct]; exact Bool.false_ne_true)]
          obtain ⟨ih1, ih2, ih3, ih4⟩ := ih tracked habs' hwf hnd hc hclean'
          simp only [processPositions, if_pos hsz, hstep]
          exact ⟨ih1, by rw [List.nil_append]; exact ih2, ih3, ih4⟩
      · have hwf1 := wfTracked_insert tracked (positionKey c q.symbol q.side)
          (freshTracked q c now) hwf hsplitq
        have hnd1 := dictKeys_insert_nodup tracked
          (positionKey c q.symbol q.side) (freshTracked q c now) hnd
        obtain ⟨ih1, ih2, ih3, ih4⟩ :=
          ih (dictInsert tracked (positionKey c q.symbol q.side)
            (freshTracked q c now)) habs' hwf1 hnd1 hc hclean'
        simp only [processPositions, if_neg hsz]
        refine ⟨?_, ?_, ih3, ih4⟩
        · rw [ih1, dictGet?_insert]
          rw [if_neg hkq]
        · rw [List.filter_append, ih2, List.append_nil]
          apply List.filter_eq_nil_iff.2
          intro e he hkey
          have hkeyq : eventKey e = positionKey c q.symbol q.side := by
            revert he
            split
            · intro he
              rw [List.mem_singleton.1 he]
              rfl
            · split
              · split
                · split
                  · intro he
                    rw [List.mem_singleton.1 he]
                    rfl
                  · split
                    · rename_i e' heq
                      intro he
                      rw [List.mem_singleton.1 he]
                      obtain ⟨h1, h2, h3⟩ := partialCloseEventData_fields
                        _ _ _ _ _ e' heq
                      show positionKey e'.category e'.symbol e'.side =
                        positionKey c q.symbol q.side
                      rw [h1, h2, h3]
                    · intro he
                      cases he
                · intro he
                  cases he
              · intro he
                cases he
          exact absurd (of_decide_eq_true hkey)
            (by rw [hkeyq]; exact hkq)

theorem contains_eq_false_of_not_mem (l : List String) (a : String)
    (h : a ∉ l) : l.contains a = false := by
  induction l with
  | nil => rfl
  | cons x l ih =>
      have hx : ¬ (a == x) = true := by
        intro hb
        rw [beq_iff_eq] at hb
        exact h (hb ▸ List.mem_cons_self _ _)
      have hx' : (a == x) = false := by
        cases hb : (a == x)
        · rfl
        · exact absurd hb hx
      have hl : a ∉ l := fun hm => h (List.mem_cons_of_mem _ hm)
      rw [List.contains_cons, hx', ih hl]
      rfl

/-- One disappearance-close step for a well-formed entry. -/
theorem handleCloseByDisappearance_found (m : TrackedMap) (k' : String)
    (getExec : String → String → ApiResponse Fill) (now : ℚ)
    (e : TrackedPosition) (hg : dictGet? m k' = some e)
    (hsp : pySplit k' '_' = [e.category, e.symbol, e.side]) :
    handleCloseByDisappearance m k' getExec now =
      (dictErase m k',
        [Event.close (dispCloseEventData e.category e.side e
          (getExec e.category e.symbol) now)]) := by
  rw [handleCloseByDisappearance, hg, hsp]

theorem eventKey_disp (c sd : String) (old : TrackedPosition)
    (execs : ApiResponse Fill) (now : ℚ) :
    eventKey (Event.close (dispCloseEventData c sd old execs now)) =
      positionKey c old.symbol old.side := rfl

/-- C3 helper: sweeping keys other than `k` neither touches `k`'s entry nor
emits events keyed `k`, and keeps the map well-formed with unique keys. -/
theorem sweepClosed_spec_not_mem (k : String)
    (getExec : String → String → ApiResponse Fill) (now : ℚ)
    (ks : List String) :
    ∀ (m : TrackedMap), wfTracked m → (dictKeys m).Nodup → k ∉ ks →
    dictGet? (sweepClosed m ks getExec now).1 k = dictGet? m k ∧
    ((sweepClosed m ks getExec now).2.filter
      (fun e => eventKey e = k)) = [] ∧
    wfTracked (sweepClosed m ks getExec now).1 ∧
    (dictKeys (sweepClosed m ks getExec now).1).Nodup := by
  induction ks with
  | nil =>
      intro m hwf hnd _
      exact ⟨rfl, rfl, hwf, hnd⟩
  | cons k' rest ih =>
      intro m hwf hnd hk
      have hk' : k' ≠ k := fun h => hk (h ▸ List.mem_cons_self _ _)
      have hkrest : k ∉ rest := fun h => hk (List.mem_cons_of_mem _ h)
      cases hg : dictGet? m k' with
      | none =>
          have hstep : handleCloseByDisappearance m k' getExec now =
              (m, []) := by
            rw [handleCloseByDisappearance, hg]
          obtain ⟨ih1, ih2, ih3, ih4⟩ := ih m hwf hnd hkrest
          simp only [sweepClosed, hstep]
          exact ⟨ih1, by rw [List.nil_append]; exact ih2, ih3, ih4⟩
      | some e =>
          have hsp := hwf _ (dictGet?_mem m k' e hg)
          have hstep := handleCloseByDisappearance_found m k' getExec now
            e hg hsp
          have hwf1 := wfTracked_erase m k' hwf
          have hnd1 := dictKeys_erase_nodup m k' hnd
          obtain ⟨ih1, ih2, ih3, ih4⟩ :=
            ih (dictErase m k') hwf1 hnd1 hkrest
          have hekey : eventKey (Event.close (dispCloseEventData e.category
              e.side e (getExec e.category e.symbol) now)) = k' := by
            rw [eventKey_disp]
            exact (positionKey_of_pySplit k' _ _ _ hsp).symm
          simp only [sweepClosed, hstep]
          refine ⟨?_, ?_, ih3, ih4⟩
          · rw [ih1, dictGet?_erase_ne _ _ _ hk']
          · rw [List.filter_append, ih2, List.append_nil, List.filter_cons]
            have hne : ¬ (eventKey (Event.close (dispCloseEventData
                e.category e.side e (getExec e.category e.symbol) now)) =
                k) := by
              rw [hekey]
              exact hk'
            simp [hne]

/-- C3 helper: sweeping a key list that contains `k` exactly once (the list
is duplicate-free) erases `k` and emits exactly the one disappearance CLOSE
event for it. -/
theorem sweepClosed_spec_mem (k : String)
    (getExec : String → String → ApiResponse Fill) (now : ℚ)
    (ks : List String) :
    ∀ (m : TrackedMap) (p : TrackedPosition), wfTracked m →
    (dictKeys m).Nodup → ks.Nodup → k ∈ ks → dictGet? m k = some p →
    dictGet? (sweepClosed m ks getExec now).1 k = none ∧
    ((sweepClosed m ks getExec now).2.filter
      (fun e => eventKey e = k)) =
      [Event.close (dispCloseEventData p.category p.side p
        (getExec p.category p.symbol) now)] := by
  induction ks with
  | nil =>
      intro m p _ _ _ hmem _
      cases hmem
  | cons k' rest ih =>
      intro m p hwf hnd hksnd hmem hg
      rw [List.nodup_cons] at hksnd
      by_cases hk' : k' = k
      · subst hk'
        have hsp := hwf _ (dictGet?_mem m k' p hg)
        have hstep := handleCloseByDisappearance_found m k' getExec now
          p hg hsp
        have hkey : positionKey p.category p.symbol p.side = k' :=
          (positionKey_of_pySplit k' _ _ _ hsp).symm
        have hwf1 := wfTracked_erase m k' hwf
        have hnd1 := dictKeys_erase_nodup m k' hnd
        have hgone : dictGet? (dictErase m k') k' = none :=
          dictErase_get_self_of_nodup m k' hnd
        obtain ⟨s1, s2, _, _⟩ := sweepClosed_spec_not_mem k' getExec now
          rest (dictErase m k') hwf1 hnd1 hksnd.1
        simp only [sweepClosed, hstep]
        constructor
        · rw [s1, hgone]
        · rw [List.filter_append, s2, List.append_nil, List.filter_cons]
          have heq : eventKey (Event.close (dispCloseEventData p.category
              p.side p (getExec p.category p.symbol) now)) = k' := by
            rw [eventKey_disp]
            exact hkey
          simp [heq]
      · have hmem' : k ∈ rest := by
          rcases List.mem_cons.1 hmem with h1 | h1
          · exact absurd h1.symm hk'
          · exact h1
        cases hg' : dictGet? m k' with
        | none =>
            have hstep : handleCloseByDisappearance m k' getExec now =
                (m, []) := by
              rw [handleCloseByDisappearance, hg']
            obtain ⟨ih1, ih2⟩ := ih m p hwf hnd hksnd.2 hmem' hg
            simp only [sweepClosed, hstep]
            exact ⟨ih1, by rw [List.nil_append]; exact ih2⟩
        | some e =>
            have hsp := hwf _ (dictGet?_mem m k' e hg')
            have hstep := handleCloseByDisappearance_found m k' getExec now
              e hg' hsp
            have hwf1 := wfTracked_erase m k' hwf
            have hnd1 := dictKeys_erase_nodup m k' hnd
            have hg1 : dictGet? (dictErase m k') k = some p := by
              rw [dictGet?_erase_ne _ _ _ hk', hg]
            obtain ⟨ih1, ih2⟩ :=
              ih (dictErase m k') p hwf1 hnd1 hksnd.2 hmem' hg1
            have hekey : eventKey (Event.close (dispCloseEventData
                e.category e.side e (getExec e.category e.symbol) now)) =
                k' := by
              rw [eventKey_disp]
              exact (positionKey_of_pySplit k' _ _ _ hsp).symm
            simp only [sweepClosed, hstep]
            refine ⟨ih1, ?_⟩
            rw [List.filter_append, ih2, List.filter_cons]
            have hne : ¬ (eventKey (Event.close (dispCloseEventData
                e.category e.side e (getExec e.category e.symbol) now)) =
                k) := by
              rw [hekey]
              exact hk'
            simp [hne]

/-- C3 helper: the whole category loop, when no fetched row of any category
carries key `k`: `k`'s entry survives untouched, no event is keyed `k`, the
map stays well-formed with unique keys, and `k` is not among
`current_position_keys`. -/
theorem runCategories_spec (k : String)
    (getPos : String → ApiResponse Position)
    (getExec : String → String → ApiResponse Fill) (now : ℚ)
    (cats : List String) :
    ∀ (tracked : TrackedMap),
    (∀ c ∈ cats, sepFree c ∧
      ∀ q ∈ (getPos c).list, sepFree q.symbol ∧ sepFree q.side) →
    (∀ c ∈ cats, ∀ q ∈ (getPos c).list,
      positionKey c q.symbol q.side ≠ k) →
    wfTracked tracked →
    (dictKeys tracked).Nodup →
    dictGet? (runCategories tracked cats getPos getExec now).1 k =
        dictGet? tracked k ∧
    ((runCategories tracked cats getPos getExec now).2.1.filter
      (fun e => eventKey e = k)) = [] ∧
    wfTracked (runCategories tracked cats getPos getExec now).1 ∧
    (dictKeys (runCategories tracked cats getPos getExec now).1).Nodup ∧
    k ∉ (runCategories tracked cats getPos getExec now).2.2 := by
  induction cats with
  | nil =>
      intro tracked _ _ hwf hnd
      exact ⟨rfl, rfl, hwf, hnd, fun h => by cases h⟩
  | cons c rest ih =>
      intro tracked hclean habs hwf hnd
      have hcleanc := hclean c (List.mem_cons_self _ _)
      have hcleanr : ∀ c' ∈ rest, sepFree c' ∧
          ∀ q ∈ (getPos c').list, sepFree q.symbol ∧ sepFree q.side :=
        fun c' h => hclean c' (List.mem_cons_of_mem _ h)
      have habsc := habs c (List.mem_cons_self _ _)
      have habsr : ∀ c' ∈ rest, ∀ q ∈ (getPos c').list,
          positionKey c' q.symbol q.side ≠ k :=
        fun c' h => habs c' (List.mem_cons_of_mem _ h)
      by_cases hrc : (getPos c).retCode = 0
      · obtain ⟨p1, p2, p3, p4⟩ := processPositions_spec k c getExec now
          (getPos c).list tracked habsc hwf hnd hcleanc.1 hcleanc.2
        obtain ⟨ih1, ih2, ih3, ih4, ih5⟩ :=
          ih (processPositions tracked (getPos c).list c getExec now).1
            hcleanr habsr p3 p4
        simp only [runCategories, if_pos hrc]
        refine ⟨by rw [ih1, p1], ?_, ih3, ih4, ?_⟩
        · rw [List.filter_append, p2, ih2]
          rfl
        · intro hmem
          rcases List.mem_append.1 hmem with h1 | h1
          · rcases List.mem_map.1 h1 with ⟨q, hq, heq⟩
            exact habsc q (List.mem_of_mem_filter hq) heq
          · exact ih5 h1
      · simp only [runCategories, if_neg hrc]
        exact ih tracked hcleanr habsr hwf hnd

/-- C3: a key that is tracked at the start of a poll cycle and absent from
every fetched live row is closed by disappearance: the cycle emits exactly
one CLOSE event for that key, with `close_percentage = 100`, shaped exactly
like the explicit zero-size close (equal to it outright whenever the
execution window yields an exit time); the key leaves the tracked map; and
handling that event marks the signal row completed, removes the key from
`active_signals`, and notifies exit once. -/
theorem disappearance_close_lifecycle (tracked : TrackedMap)
    (cats : List String) (getPos : String → ApiResponse Position)
    (getExec : String → String → ApiResponse Fill) (now : ℚ) (k : String)
    (p : TrackedPosition) (db : DbState) (active : List (String × Nat))
    (sid : Nat) (r : SignalRow)
    (hwf : wfTracked tracked)
    (hnd : (dictKeys tracked).Nodup)
    (hclean : ∀ c ∈ cats, sepFree c ∧
      ∀ q ∈ (getPos c).list, sepFree q.symbol ∧ sepFree q.side)
    (hk : dictGet? tracked k = some p)
    (habs : ∀ c ∈ cats, ∀ q ∈ (getPos c).list,
      positionKey c q.symbol q.side ≠ k)
    (handup : (dictKeys active).Nodup)
    (hact : dictGet? active k = some sid)
    (hrow : get_signal db sid = some r) :
    ((checkPositions tracked cats getPos getExec now).2.filter
      (fun e => eventKey e = k)) =
      [Event.close (dispCloseEventData p.category p.side p
        (getExec p.category p.symbol) now)] ∧
    (dispCloseEventData p.category p.side p
      (getExec p.category p.symbol) now).close_percentage = 100 ∧
    dictGet? (checkPositions tracked cats getPos getExec now).1 k = none ∧
    (∀ t, (closeScan p.side
        (respRows (getExec p.category p.symbol))).exit_time = some t →
      dispCloseEventData p.category p.side p
          (getExec p.category p.symbol) now =
        closeEventData p p.category (getExec p.category p.symbol)) ∧
    (get_signal (handleCloseService ⟨db, active⟩
        (dispCloseEventData p.category p.side p
          (getExec p.category p.symbol) now)).1.db sid).map
      (fun row => row.is_completed) = some true ∧
    dictGet? (handleCloseService ⟨db, active⟩
        (dispCloseEventData p.category p.side p
          (getExec p.category p.symbol) now)).1.active_signals k = none ∧
    (handleCloseService ⟨db, active⟩
        (dispCloseEventData p.category p.side p
          (getExec p.category p.symbol) now)).2 =
      [Notification.exit sid] := by
  have hsp := hwf _ (dictGet?_mem tracked k p hk)
  have hkey : positionKey p.category p.symbol p.side = k :=
    (positionKey_of_pySplit k _ _ _ hsp).symm
  obtain ⟨r1, r2, r3, r4, r5⟩ :=
    runCategories_spec k getPos getExec now cats tracked hclean habs hwf hnd
  have hgets : dictGet? (runCategories tracked cats getPos getExec now).1 k =
      some p := by rw [r1, hk]
  have hmemkeys : k ∈ dictKeys (runCategories tracked cats getPos
      getExec now).1 :=
    mem_dictKeys_of_isSome _ _ (by rw [hgets]; rfl)
  have hcontains : (runCategories tracked cats getPos
      getExec now).2.2.contains k = false :=
    contains_eq_false_of_not_mem _ _ r5
  have hmemclosed : k ∈ (dictKeys (runCategories tracked cats getPos
      getExec now).1).filter
      (fun k' => ¬ (runCategories tracked cats getPos
        getExec now).2.2.contains k') := by
    apply List.mem_filter.2
    refine ⟨hmemkeys, ?_⟩
    rw [hcontains]
    decide
  have hclosednd : ((dictKeys (runCategories tracked cats getPos
      getExec now).1).filter
      (fun k' => ¬ (runCategories tracked cats getPos
        getExec now).2.2.contains k')).Nodup :=
    r4.filter _
  obtain ⟨s1, s2⟩ := sweepClosed_spec_mem k getExec now _
    (runCategories tracked cats getPos getExec now).1 p r3 r4 hclosednd
    hmemclosed hgets
  have hact' : dictGet? active
      (positionKey (dispCloseEventData p.category p.side p
          (getExec p.category p.symbol) now).category
        (dispCloseEventData p.category p.side p
          (getExec p.category p.symbol) now).symbol
        (dispCloseEventData p.category p.side p
          (getExec p.category p.symbol) now).side) = some sid := by
    show dictGet? active (positionKey p.category p.symbol p.side) = some sid
    rw [hkey]
    exact hact
  have hspec := handleCloseService_spec db active
    (dispCloseEventData p.category p.side p
      (getExec p.category p.symbol) now) sid r hact' hrow
  refine ⟨?_, rfl, ?_, ?_, ?_, ?_, hspec.2.2⟩
  · show (((runCategories tracked cats getPos getExec now).2.1 ++
      (sweepClosed (runCategories tracked cats getPos getExec now).1
        ((dictKeys (runCategories tracked cats getPos getExec now).1).filter
          (fun k' => ¬ (runCategories tracked cats getPos
            getExec now).2.2.contains k')) getExec now).2).filter
      (fun e => eventKey e = k)) = _
    rw [List.filter_append, r2, s2, List.nil_append]
  · show dictGet? (sweepClosed (runCategories tracked cats getPos
      getExec now).1
      ((dictKeys (runCategories tracked cats getPos getExec now).1).filter
        (fun k' => ¬ (runCategories tracked cats getPos
          getExec now).2.2.contains k')) getExec now).1 k = none
    exact s1
  · intro t ht
    simp only [dispCloseEventData, closeEventData, ht]
    rfl
  · rw [hspec.1]
    rfl
  · rw [hspec.2.1]
    show dictGet? (dictErase active
      (positionKey p.category p.symbol p.side)) k = none
    rw [hkey]
    exact dictErase_get_self_of_nodup active k handup

/-- The tracked entry for the C3 witness. -/
def c3p : TrackedPosition :=
  { symbol := "BTCUSDT", side := "Buy", size := 1, leverage := "10",
    avg_price := 50000, mark_price := 50100, unrealized_pnl := 0,
    percentage := 0, category := "linear", last_update := 0 }

/-- C3 witness: a concrete cycle in which the tracked key is absent from the
(successfully fetched, empty) live list — one CLOSE event keyed to it,
removal from the tracked map, and a completed signal row. -/
theorem disappearance_close_lifecycle_witness :
    ((checkPositions [("linear_BTCUSDT_Buy", c3p)] ["linear"]
      (fun _ => ⟨0, []⟩) (fun _ _ => ⟨-1, []⟩) 7).2.filter
      (fun e => eventKey e = "linear_BTCUSDT_Buy")) =
      [Event.close (dispCloseEventData c3p.category c3p.side c3p
        ⟨-1, []⟩ 7)] ∧
    dictGet? (checkPositions [("linear_BTCUSDT_Buy", c3p)] ["linear"]
      (fun _ => ⟨0, []⟩) (fun _ _ => ⟨-1, []⟩) 7).1
      "linear_BTCUSDT_Buy" = none ∧
    (get_signal (handleCloseService ⟨c7db, [("linear_BTCUSDT_Buy", 1)]⟩
        (dispCloseEventData c3p.category c3p.side c3p ⟨-1, []⟩ 7)).1.db
      1).map (fun row => row.is_completed) = some true := by
  have h := disappearance_close_lifecycle [("linear_BTCUSDT_Buy", c3p)]
    ["linear"] (fun _ => ⟨0, []⟩) (fun _ _ => ⟨-1, []⟩) 7
    "linear_BTCUSDT_Buy" c3p c7db [("linear_BTCUSDT_Buy", 1)] 1 c7row
    (by unfold wfTracked; decide) (by decide)
    (by unfold sepFree; decide) (by decide) (by decide) (by decide)
    (by decide) (by decide)
  exact ⟨h.1, h.2.2.1, h.2.2.2.2.1⟩

end BybitBot

